import Mathlib

/-!
Shallow embedding of the tournament-aggregation pipeline of `build_site.py`
(Free Chess Stats Database build script).  Strings are modelled as `List Char`
(`Str`), Python floats as exact rationals `ℚ` (`ℝ` where transcendental
functions appear), Python dicts as insertion-ordered association lists.
The module `epr_calculator` is not part of this repository's sources, so the
`optimize_w and calculate_EPR and adjust_mn` guard is `False` and every rating
estimate goes through the closed-form branch (lines 577-583 and 772-779).
-/

namespace BuildSite

abbrev Str := List Char

/-- Whitespace class of Python's regex `\s` (ASCII). -/
def isSp (c : Char) : Bool :=
  c = ' ' || c = '\t' || c = '\n' || c = '\r' || c = '\x0b' || c = '\x0c'

/-- ASCII lower-case letter test. -/
def isLowerA (c : Char) : Bool := decide ('a' ≤ c) && decide (c ≤ 'z')

/-- ASCII upper-case letter test (regex class `[A-Z]`). -/
def isUpperA (c : Char) : Bool := decide ('A' ≤ c) && decide (c ≤ 'Z')

/-- ASCII alphanumeric test (regex class `[a-zA-Z0-9]`). -/
def isAlnumA (c : Char) : Bool := isLowerA c || isUpperA c || c.isDigit

/-- Upper-case image of a lower-case ASCII letter. -/
def upC (p : Char) : Char := Char.ofNat (p.toNat - 32)

/-- Case-insensitive character match: pattern characters are written in lower
case, and an input character matches if it is equal to the pattern character
or is its upper-case variant (the `re.IGNORECASE` flag). -/
def ciEq (p c : Char) : Bool := decide (c = p) || (isLowerA p && decide (c = upC p))

/-- Drop a case-insensitive literal from the front of the input
(`None` when the literal does not match). -/
def dropLitCI : Str → Str → Option Str
  | [], l => some l
  | _ :: _, [] => none
  | p :: ps, c :: cs => if ciEq p c then dropLitCI ps cs else none

/-- Drop a case-sensitive literal from the front of the input. -/
def dropLitCS : Str → Str → Option Str
  | [], l => some l
  | _ :: _, [] => none
  | p :: ps, c :: cs => if c = p then dropLitCS ps cs else none

/-- Tokens of the anchored regular expressions used by `is_round_pairing`.
`lit` is a case-insensitive literal (patterns are compiled with
`re.IGNORECASE`), `litCS` a case-sensitive one, `sp1`/`sp0` are `\s+`/`\s*`,
`digits1` is `\d+`, `opt` an optional case-insensitive literal (`s?`),
`upper1`/`lower1` are `[A-Z]`/`[a-z]+`, and `eos` is the `$` anchor. -/
inductive Tok where
  | lit (s : Str)
  | litCS (s : Str)
  | sp1
  | sp0
  | digits1
  | opt (s : Str)
  | upper1
  | lower1
  | eos
deriving DecidableEq

/-- Match one token at the front of the input, returning the rest.  Each
quantifier is greedy; in every pattern below the character class of a
greedy token is disjoint from the character that follows it, so greedy
matching agrees with the backtracking regex semantics. -/
def matchTok : Tok → Str → Option Str
  | .lit s, l => dropLitCI s l
  | .litCS s, l => dropLitCS s l
  | .sp1, [] => none
  | .sp1, c :: r => if isSp c then some (r.dropWhile isSp) else none
  | .sp0, l => some (l.dropWhile isSp)
  | .digits1, [] => none
  | .digits1, c :: r => if c.isDigit then some (r.dropWhile Char.isDigit) else none
  | .opt s, l => match dropLitCI s l with
      | some r => some r
      | none => some l
  | .upper1, [] => none
  | .upper1, c :: r => if isUpperA c then some r else none
  | .lower1, [] => none
  | .lower1, c :: r => if isLowerA c then some (r.dropWhile isLowerA) else none
  | .eos, [] => some []
  | .eos, _ :: _ => none

/-- Match a token sequence at the front of the input (`re.match`). -/
def matchToks : List Tok → Str → Option Str
  | [], l => some l
  | t :: ts, l => match matchTok t l with
      | some r => matchToks ts r
      | none => none

/-- Tail of an anchored round pattern: `\s+\d+\s*:`. -/
def numColon : List Tok := [.sp1, .digits1, .sp0, .lit [':']]

/-- The anchored case-insensitive patterns 1-7 of `is_round_pairing`, in
source order; the whole pattern matches when any sequence matches. -/
def pairingPats : List (List Tok) :=
  [ -- Pattern 1: ^(Classical\s+|Rapid\s+|Blitz\s+)?Round\s+\d+\s*:
    [.lit ['c','l','a','s','s','i','c','a','l'], .sp1, .lit ['r','o','u','n','d']] ++ numColon,
    [.lit ['r','a','p','i','d'], .sp1, .lit ['r','o','u','n','d']] ++ numColon,
    [.lit ['b','l','i','t','z'], .sp1, .lit ['r','o','u','n','d']] ++ numColon,
    [.lit ['r','o','u','n','d']] ++ numColon,
    -- Pattern 2: ^Game\s+\d+\s*:
    [.lit ['g','a','m','e']] ++ numColon,
    -- Pattern 3: ^Round\s+of\s+\d+\s*\|
    [.lit ['r','o','u','n','d'], .sp1, .lit ['o','f'], .sp1, .digits1, .sp0, .lit ['|']],
    -- Pattern 4: knockout stages
    [.lit ['q','u','a','r','t','e','r','-','f','i','n','a','l'], .opt ['s'], .sp0, .lit ['|']],
    [.lit ['s','e','m','i','-','f','i','n','a','l'], .opt ['s'], .sp0, .lit ['|']],
    [.lit ['f','i','n','a','l'], .opt ['s'], .sp0, .lit ['|']],
    [.lit ['3','r','d'], .sp1, .lit ['p','l','a','c','e'], .sp0, .lit ['|']],
    [.lit ['b','r','o','n','z','e'], .sp1, .lit ['m','e','d','a','l'], .sp0, .lit ['|']],
    -- Pattern 5 (first part): ^Tiebreak\s*:
    [.lit ['t','i','e','b','r','e','a','k'], .sp0, .lit [':']],
    -- Pattern 6: Italian ordinal + turno
    [.lit ['p','r','i','m','o'], .sp1, .lit ['t','u','r','n','o'], .sp0, .lit [':']],
    [.lit ['s','e','c','o','n','d','o'], .sp1, .lit ['t','u','r','n','o'], .sp0, .lit [':']],
    [.lit ['t','e','r','z','o'], .sp1, .lit ['t','u','r','n','o'], .sp0, .lit [':']],
    [.lit ['q','u','a','r','t','o'], .sp1, .lit ['t','u','r','n','o'], .sp0, .lit [':']],
    [.lit ['q','u','i','n','t','o'], .sp1, .lit ['t','u','r','n','o'], .sp0, .lit [':']],
    [.lit ['s','e','s','t','o'], .sp1, .lit ['t','u','r','n','o'], .sp0, .lit [':']],
    [.lit ['s','e','t','t','i','m','o'], .sp1, .lit ['t','u','r','n','o'], .sp0, .lit [':']],
    [.lit ['o','t','t','a','v','o'], .sp1, .lit ['t','u','r','n','o'], .sp0, .lit [':']],
    [.lit ['n','o','n','o'], .sp1, .lit ['t','u','r','n','o'], .sp0, .lit [':']],
    [.lit ['d','e','c','i','m','o'], .sp1, .lit ['t','u','r','n','o'], .sp0, .lit [':']],
    [.lit ['u','n','d','i','c','e','s','i','m','o'], .sp1, .lit ['t','u','r','n','o'], .sp0, .lit [':']],
    [.lit ['d','o','d','i','c','e','s','i','m','o'], .sp1, .lit ['t','u','r','n','o'], .sp0, .lit [':']],
    [.lit ['t','r','e','d','i','c','e','s','i','m','o'], .sp1, .lit ['t','u','r','n','o'], .sp0, .lit [':']],
    -- Pattern 7: German/French/Spanish/Portuguese round labels
    [.lit ['r','u','n','d','e']] ++ numColon,
    [.lit ['t','o','u','r']] ++ numColon,
    [.lit ['r','o','n','d','a']] ++ numColon,
    [.lit ['p','a','r','t','i','d','a']] ++ numColon ]

/-- Pattern 8, case-sensitive:
`^[A-Z][a-z]+,\s+[A-Z][a-z]+\s+-\s+[A-Z][a-z]+,\s+[A-Z][a-z]+$`. -/
def headToHeadPat : List Tok :=
  [.upper1, .lower1, .litCS [','], .sp1, .upper1, .lower1,
   .sp1, .litCS ['-'], .sp1, .upper1, .lower1, .litCS [','], .sp1, .upper1, .lower1, .eos]

/-- Does the input start with the case-sensitive literal? -/
def startsWithCS (pat l : Str) : Bool := (dropLitCS pat l).isSome

/-- Python's substring containment `pat in l`. -/
def hasSub (pat : Str) : Str → Bool
  | [] => startsWithCS pat []
  | c :: r => startsWithCS pat (c :: r) || hasSub pat r

/-- Does any of the anchored patterns match the front of the input? -/
def anyPat (pats : List (List Tok)) (l : Str) : Bool :=
  pats.any fun ts => (matchToks ts l).isSome

/-- The substring checks of Pattern 5: `'| Tiebreak:' in event_str` and
`'|Tiebreak:' in event_str` (case-sensitive). -/
def tiebreakSub1 : Str := ['|', ' ', 'T', 'i', 'e', 'b', 'r', 'e', 'a', 'k', ':']

/-- Second tiebreak substring, without the space. -/
def tiebreakSub2 : Str := ['|', 'T', 'i', 'e', 'b', 'r', 'e', 'a', 'k', ':']

/-- Embedding of `is_round_pairing(event_str)` (build_site.py lines 235-309):
an empty string is not a pairing; otherwise the ordered cascade of anchored
patterns, the two tiebreak substring checks, and the head-to-head pattern. -/
def is_round_pairing (l : Str) : Bool :=
  if l = [] then false
  else anyPat pairingPats l || hasSub tiebreakSub1 l || hasSub tiebreakSub2 l
       || (matchToks headToHeadPat l).isSome

/-! URL slug extraction (`extract_tournament_from_url`, lines 312-378). -/

/-- Try to match `/broadcast/([^/]+)/` at the current position: the literal
`/broadcast/`, a nonempty run of non-`/` characters, then a `/`. -/
def tryBroadcastHere (l : Str) : Option Str :=
  match dropLitCS ['/', 'b', 'r', 'o', 'a', 'd', 'c', 'a', 's', 't', '/'] l with
  | none => none
  | some rest =>
      let seg := rest.takeWhile fun c => !decide (c = '/')
      let after := rest.dropWhile fun c => !decide (c = '/')
      if seg = [] then none else if after = [] then none else some seg

/-- The search `re.search(r'/broadcast/([^/]+)/', url)`: scan every start position,
left to right, taking the first successful match. -/
def broadcastSlug : Str → Option Str
  | [] => none
  | c :: r => match tryBroadcastHere (c :: r) with
      | some s => some s
      | none => broadcastSlug r

/-- Characters of the regex class `[a-z0-9-]`. -/
def isSlugChar (c : Char) : Bool := isLowerA c || c.isDigit || c = '-'

/-- Try to match `lichess\.org/([a-z0-9-]+(?:-\d{4})?)/[a-zA-Z0-9]+` at the
current position.  The greedy class `[a-z0-9-]+` already covers the optional
`(?:-\d{4})?`, and since `/` is outside the class, the maximal run followed
by `/` and one alphanumeric character is exactly the backtracking match. -/
def tryLichessHere (l : Str) : Option Str :=
  match dropLitCS ['l', 'i', 'c', 'h', 'e', 's', 's', '.', 'o', 'r', 'g', '/'] l with
  | none => none
  | some rest =>
      let run := rest.takeWhile isSlugChar
      let after := rest.dropWhile isSlugChar
      if run = [] then none
      else match after with
        | '/' :: c :: _ => if isAlnumA c then some run else none
        | _ => none

/-- The `re.search` scan for the direct-tournament-URL pattern. -/
def lichessSlug : Str → Option Str
  | [] => none
  | c :: r => match tryLichessHere (c :: r) with
      | some s => some s
      | none => lichessSlug r

/-- Path keywords excluded from slug extraction (line 343). -/
def excludedSlugs : List Str :=
  ["game".data, "study".data, "editor".data, "analysis".data,
   "training".data, "learn".data, "tv".data, "api".data]

/-- Slug resolution of `extract_tournament_from_url`: the broadcast URL form
first; otherwise the direct form, kept only when longer than 10 characters
and not an excluded path keyword. -/
def slugOf (site : Str) : Option Str :=
  match broadcastSlug site with
  | some s => some s
  | none =>
      match lichessSlug site with
      | some ps => if 10 < ps.length && decide (ps ∉ excludedSlugs) then some ps else none
      | none => none

/-- Python `str.replace('--', '|||')`: sequential non-overlapping
replacement, left to right. -/
def replDD : Str → Str
  | '-' :: '-' :: r => '|' :: '|' :: '|' :: replDD r
  | c :: r => c :: replDD r
  | [] => []

/-- Python `str.replace('|||', ' ')`. -/
def replPPP : Str → Str
  | '|' :: '|' :: '|' :: r => ' ' :: replPPP r
  | c :: r => c :: replPPP r
  | [] => []

/-- Split on every occurrence of one character, keeping empty segments
(Python `str.split('-')` / `str.split('.')`). -/
def splitOnChar (sep : Char) : Str → List Str
  | [] => [[]]
  | c :: r =>
      if c = sep then [] :: splitOnChar sep r
      else match splitOnChar sep r with
        | g :: gs => (c :: g) :: gs
        | [] => [[c]]

/-- Python `str.isdigit()` for ASCII: nonempty and all decimal digits. -/
def pyIsDigit (w : Str) : Bool := !decide (w = []) && w.all Char.isDigit

/-- Python `str.capitalize()`: first character upper-cased, the rest
lower-cased (ASCII). -/
def pyCapitalize : Str → Str
  | [] => []
  | c :: r => c.toUpper :: r.map Char.toLower

/-- Acronyms upper-cased during slug formatting (line 366). -/
def slugAcronyms : List Str :=
  ["fide".data, "usa".data, "us".data, "gm".data, "im".data,
   "fm".data, "wgm".data, "wim".data]

/-- Short common words kept out of the `len(word) <= 2` upper-casing rule
(line 373). -/
def commonShortWords : List Str :=
  ["di".data, "de".data, "la".data, "le".data,
   "a".data, "e".data, "i".data, "o".data, "u".data]

/-- Per-word formatting of the slug-to-title conversion (lines 358-376). -/
def formatWord (w : Str) : Str :=
  if w.map Char.toLower ∈ slugAcronyms then w.map Char.toUpper
  else if pyIsDigit w then w
  else if w.length ≤ 2 && decide (w.map Char.toLower ∉ commonShortWords) then w.map Char.toUpper
  else pyCapitalize w

/-- Python `' '.join(words)`. -/
def joinSpace : List Str → Str
  | [] => []
  | [w] => w
  | w :: x :: r => w ++ ' ' :: joinSpace (x :: r)

/-- The formatted nonempty words of a slug (lines 352-376): preserve double
dashes as word-group separators, split on single dashes, restore the
separators, drop empty words and format the rest. -/
def formatWords (slug : Str) : List Str :=
  (((splitOnChar '-' (replDD slug)).map replPPP).filter fun w => !decide (w = [])).map
    formatWord

/-- Slug-to-title conversion (lines 350-378): `None` when no word
survives, else the space-joined formatted words. -/
def formatSlug (slug : Str) : Option Str :=
  if formatWords slug = [] then none else some (joinSpace (formatWords slug))

/-- Embedding of `extract_tournament_from_url(site_url)` (lines 312-378). -/
def extract_tournament_from_url (site : Str) : Option Str :=
  if site = [] then none
  else match slugOf site with
    | none => none
    | some slug => formatSlug slug

/-- Python `str.split()` with no argument: split on whitespace runs,
dropping empty segments.  Used by `format_tournament_name`. -/
def splitWs : Str → List Str
  | [] => []
  | c :: r =>
      if isSp c then splitWs r
      else (c :: r.takeWhile fun x => !isSp x) :: splitWs (r.dropWhile fun x => !isSp x)
termination_by l => l.length
decreasing_by
  · simp only [List.length_cons]; omega
  · simp only [List.length_cons]
    exact Nat.lt_succ_of_le (List.dropWhile_sublist _).length_le

/-- Embedding of `format_tournament_name(filename)` (lines 865-878):
dashes and underscores become spaces, digit words stay, words of length
at most 3 are upper-cased, the rest capitalized. -/
def format_tournament_name (f : Str) : Str :=
  let name := f.map fun c => if c = '-' || c = '_' then ' ' else c
  joinSpace ((splitWs name).map fun w =>
    if pyIsDigit w then w
    else if w.length ≤ 3 then w.map Char.toUpper
    else pyCapitalize w)

/-- Tournament-name decision for one CSV row (lines 417-431): a pairing
label defers to the Site URL (falling back to the formatted folder name),
a non-empty non-pairing label is used verbatim, and an empty label falls
back to the formatted folder name. -/
def tournamentNameForRow (event site folder : Str) : Str :=
  if !decide (event = []) && is_round_pairing event then
    match extract_tournament_from_url site with
    | some n => if n = [] then format_tournament_name folder else n
    | none => format_tournament_name folder
  else if !decide (event = []) then event
  else format_tournament_name folder

/-! Insertion-ordered association lists: the embedding of Python dicts
(`defaultdict` access and `d[k] = v` assignment). -/

section ADict

variable {α β : Type} [DecidableEq α]

/-- Update the binding of `k` in place (Python `d[k] = f(d[k])` on a
`defaultdict` with default `d0`): the first binding of `k` is replaced,
preserving insertion order; a missing key is appended at the end. -/
def aupd (k : α) (d0 : β) (f : β → β) : List (α × β) → List (α × β)
  | [] => [(k, f d0)]
  | (k', v) :: r => if k = k' then (k', f v) :: r else (k', v) :: aupd k d0 f r

/-- Dictionary lookup: the value of the first binding of `k`. -/
def alook (k : α) : List (α × β) → Option β
  | [] => none
  | (k', v) :: r => if k = k' then some v else alook k r

/-- Plain dictionary assignment `d[k] = v`. -/
def aset (k : α) (v : β) (m : List (α × β)) : List (α × β) := aupd k v (fun _ => v) m

end ADict

/-! Rating estimator (closed-form branch, lines 577-583 and 772-779).
The module `epr_calculator` is absent from the repository, so the iterative
branch is never taken.  Python floats are modelled as real numbers. -/

/-- Embedding of the closed-form performance-rating estimate: for a perfect
or zero score `m` out of `n`, the bounded CPR correction
`avg - ((n+1)/n) * 400 * log10((n+0.5-m)/(m+0.5))`; otherwise
`avg + 400 * log10(m/(n-m))`. -/
noncomputable def estimate_rating (m n avg : ℚ) : ℝ :=
  if m = 0 ∨ m = n then
    (avg : ℝ) - (((n : ℝ) + 1) / (n : ℝ)) * 400 *
      Real.logb 10 (((n : ℝ) + 0.5 - (m : ℝ)) / ((m : ℝ) + 0.5))
  else (avg : ℝ) + 400 * Real.logb 10 ((m : ℝ) / ((n : ℝ) - (m : ℝ)))

/-- Reference definition following the words of claim C1: the same interior
formula, but with the degenerate case written as
`avg - sign * ((n+1)/n) * 400 * log10((n+0.5-m)/(m+0.5))` where `sign` is
`-1` for a perfect score and `+1` for a zero score. -/
noncomputable def specC1Rating (m n avg : ℚ) : ℝ :=
  if 0 < m ∧ m < n then
    (avg : ℝ) + 400 * Real.logb 10 ((m : ℝ) / ((n : ℝ) - (m : ℝ)))
  else
    (avg : ℝ) - (if m = n then (-1 : ℝ) else 1) * (((n : ℝ) + 1) / (n : ℝ)) * 400 *
      Real.logb 10 (((n : ℝ) + 0.5 - (m : ℝ)) / ((m : ℝ) + 0.5))

/-! Aggregator (`load_tournament_data`, lines 381-637). -/

/-- One parsed CSV row of `aggregated_game_data` after the `safe_float` /
`safe_int` conversions (missing or malformed numeric fields are 0). -/
structure Row where
  white : Str
  black : Str
  whiteResult : ℚ
  blackResult : ℚ
  whiteElo : ℤ
  blackElo : ℤ
  whiteGi : ℚ
  blackGi : ℚ
  whiteMp : ℚ
  blackMp : ℚ
  event : Str
  site : Str
  roundLbl : Str
  date : Str
  whiteMoves : ℤ
  blackMoves : ℤ
deriving DecidableEq

/-- Per-player running totals (the `player_stats` defaultdict entry,
lines 459-466). -/
structure PStats where
  games : ℕ
  score : ℚ
  elo : ℤ
  giSum : ℚ
  mpSum : ℚ
  oppEloSum : ℤ
  wins : ℕ
  draws : ℕ
  losses : ℕ
  whiteGames : ℕ
  blackGames : ℕ
  whiteGiSum : ℚ
  blackGiSum : ℚ
  whiteMpSum : ℚ
  blackMpSum : ℚ
deriving DecidableEq

/-- The defaultdict zero entry. -/
def PStats.init : PStats :=
  { games := 0, score := 0, elo := 0, giSum := 0, mpSum := 0, oppEloSum := 0,
    wins := 0, draws := 0, losses := 0, whiteGames := 0, blackGames := 0,
    whiteGiSum := 0, blackGiSum := 0, whiteMpSum := 0, blackMpSum := 0 }

/-- White-side update of a player aggregate for one row (lines 516-532). -/
def updWhite (r : Row) (st : PStats) : PStats :=
  { st with
    games := st.games + 1
    score := st.score + r.whiteResult
    elo := max st.elo r.whiteElo
    giSum := st.giSum + r.whiteGi
    mpSum := st.mpSum + r.whiteMp
    oppEloSum := st.oppEloSum + r.blackElo
    whiteGames := st.whiteGames + 1
    whiteGiSum := st.whiteGiSum + r.whiteGi
    whiteMpSum := st.whiteMpSum + r.whiteMp
    wins := if r.whiteResult = 1 then st.wins + 1 else st.wins
    draws := if r.whiteResult ≠ 1 ∧ r.whiteResult = 1/2 then st.draws + 1 else st.draws
    losses := if r.whiteResult ≠ 1 ∧ r.whiteResult ≠ 1/2 then st.losses + 1 else st.losses }

/-- Black-side update of a player aggregate for one row (lines 534-550). -/
def updBlack (r : Row) (st : PStats) : PStats :=
  { st with
    games := st.games + 1
    score := st.score + r.blackResult
    elo := max st.elo r.blackElo
    giSum := st.giSum + r.blackGi
    mpSum := st.mpSum + r.blackMp
    oppEloSum := st.oppEloSum + r.whiteElo
    blackGames := st.blackGames + 1
    blackGiSum := st.blackGiSum + r.blackGi
    blackMpSum := st.blackMpSum + r.blackMp
    wins := if r.blackResult = 1 then st.wins + 1 else st.wins
    draws := if r.blackResult ≠ 1 ∧ r.blackResult = 1/2 then st.draws + 1 else st.draws
    losses := if r.blackResult ≠ 1 ∧ r.blackResult ≠ 1/2 then st.losses + 1 else st.losses }

/-- Fold one row into the `player_stats` dict: a side with an empty player
name is skipped, the other side is still recorded. -/
def statsStep (d : List (Str × PStats)) (r : Row) : List (Str × PStats) :=
  let d := if r.white = [] then d else aupd r.white PStats.init (updWhite r) d
  if r.black = [] then d else aupd r.black PStats.init (updBlack r) d

/-- Result string written into the tournament game list (lines 494-499). -/
def resultStr (wr br : ℚ) : Str :=
  if wr = 1 then "1-0".data else if br = 1 then "0-1".data else "½-½".data

/-- One entry of a tournament's `games_list` (lines 501-513). -/
structure GameOut where
  white : Str
  black : Str
  whiteElo : ℤ
  blackElo : ℤ
  whiteGi : ℚ
  blackGi : ℚ
  whiteMp : ℚ
  blackMp : ℚ
  result : Str
  roundLbl : Str
  date : Str
deriving DecidableEq

/-- Scan state of the per-tournament row loop (lines 468-470): the first
nonempty date and site seen so far (empty = not yet set, matching Python's
falsy test), the move total, the game list, and the player dict. -/
structure Acc where
  firstDate : Str
  firstSite : Str
  totalMoves : ℤ
  games : List GameOut
  stats : List (Str × PStats)

/-- Initial scan state. -/
def Acc.init : Acc :=
  { firstDate := [], firstSite := [], totalMoves := 0, games := [], stats := [] }

/-- Process one row (lines 472-550): update first date/site and move total,
append the game-list entry, then fold both players into the stats dict. -/
def stepRow (a : Acc) (r : Row) : Acc :=
  let fd := if a.firstDate = [] then r.date else a.firstDate
  let fs := if a.firstSite = [] then r.site else a.firstSite
  let g : GameOut :=
    { white := r.white, black := r.black, whiteElo := r.whiteElo, blackElo := r.blackElo,
      whiteGi := r.whiteGi, blackGi := r.blackGi, whiteMp := r.whiteMp, blackMp := r.blackMp,
      result := resultStr r.whiteResult r.blackResult, roundLbl := r.roundLbl, date := fd }
  { firstDate := fd, firstSite := fs,
    totalMoves := a.totalMoves + r.whiteMoves + r.blackMoves,
    games := a.games ++ [g], stats := statsStep a.stats r }

/-- One finalized entry of `player_stats_list` (lines 585-603). -/
structure PFinal where
  name : Str
  games : ℕ
  score : ℚ
  elo : ℤ
  avgGi : ℚ
  avgMp : ℚ
  tpr : ℝ
  wins : ℕ
  draws : ℕ
  losses : ℕ
  whiteGames : ℕ
  blackGames : ℕ
  avgGiWhite : ℚ
  avgGiBlack : ℚ
  avgMpWhite : ℚ
  avgMpBlack : ℚ

/-- Finalize the player dict (lines 552-603): keep players with at least one
game, in insertion order, computing per-game averages and the closed-form
rating estimate from score, games and average opponent rating. -/
noncomputable def finalizeStats (d : List (Str × PStats)) : List PFinal :=
  d.filterMap fun nst =>
    let st := nst.2
    if st.games = 0 then none
    else some
      { name := nst.1, games := st.games, score := st.score, elo := st.elo,
        avgGi := st.giSum / st.games, avgMp := st.mpSum / st.games,
        tpr := estimate_rating st.score (st.games : ℚ) ((st.oppEloSum : ℚ) / (st.games : ℚ)),
        wins := st.wins, draws := st.draws, losses := st.losses,
        whiteGames := st.whiteGames, blackGames := st.blackGames,
        avgGiWhite := if 0 < st.whiteGames then st.whiteGiSum / st.whiteGames else 0,
        avgGiBlack := if 0 < st.blackGames then st.blackGiSum / st.blackGames else 0,
        avgMpWhite := if 0 < st.whiteGames then st.whiteMpSum / st.whiteGames else 0,
        avgMpBlack := if 0 < st.blackGames then st.blackMpSum / st.blackGames else 0 }

/-- The standings order `key=lambda x: (-score, -tpr)` (line 606). -/
def playerOrd (a b : PFinal) : Prop :=
  -a.score < -b.score ∨ (-a.score = -b.score ∧ -a.tpr ≤ -b.tpr)

/-- Stable sort of the finalized player list by the standings key. -/
noncomputable def sortPlayers (l : List PFinal) : List PFinal :=
  letI : DecidableRel playerOrd := Classical.decRel _
  List.insertionSort playerOrd l

/-! Summary builder (`calculate_tournament_summary_stats`, lines 176-232). -/

/-- Round half to even on an integer-scaled value. -/
def roundHalfEven (x : ℚ) : ℤ :=
  let f := x.floor
  let r := x - f
  if r < 1/2 then f else if 1/2 < r then f + 1 else if f % 2 = 0 then f else f + 1

/-- Python `round(x, 2)` via round-half-even. -/
def pyRound2Q (q : ℚ) : ℚ := (roundHalfEven (q * 100) : ℚ) / 100

/-- Round half to even on a real value. -/
noncomputable def roundHalfEvenR (x : ℝ) : ℤ :=
  let f := ⌊x⌋
  let r := x - f
  if r < 1/2 then f else if 1/2 < r then f + 1 else if f % 2 = 0 then f else f + 1

/-- Real-valued `round(x, 2)`. -/
noncomputable def pyRound2R (x : ℝ) : ℝ := (roundHalfEvenR (x * 100) : ℝ) / 100

/-- One `calc_stats` block: mean, median, sample standard deviation, min and
max, each rounded to two decimals (lines 180-201). -/
structure StatBlock where
  mean : ℚ
  median : ℚ
  std : ℝ
  min : ℚ
  max : ℚ

/-- Real-valued statistics block (for the `tpr` metric, whose values are
rating estimates). -/
structure StatBlockR where
  mean : ℝ
  median : ℝ
  std : ℝ
  min : ℝ
  max : ℝ

/-- Ascending sort of rationals (`statistics.median` sorts its input). -/
def sortQ (l : List ℚ) : List ℚ := List.insertionSort (· ≤ ·) l

/-- Python `statistics.median` on a nonempty list: middle element for odd length,
mean of the two middle elements for even length. -/
def medianQ (l : List ℚ) : ℚ :=
  let s := sortQ l
  let n := s.length
  if n % 2 = 1 then s.getD (n / 2) 0
  else (s.getD (n / 2 - 1) 0 + s.getD (n / 2) 0) / 2

/-- The function `calc_stats(values)` over rationals (lines 180-201): all-zero block for
an empty list, otherwise rounded mean/median/sample-std/min/max.  The inner
`v is not None` filter is the identity here because every collected value is
a number. -/
noncomputable def calcStatsQ (values : List ℚ) : StatBlock :=
  match values with
  | [] => { mean := 0, median := 0, std := 0, min := 0, max := 0 }
  | v :: vs =>
      let n := values.length
      let mean := values.sum / n
      let std : ℝ :=
        if 1 < n then
          Real.sqrt ((((values.map fun x => (x - mean) ^ 2).sum / ((n : ℚ) - 1) : ℚ)) : ℝ)
        else 0
      { mean := pyRound2Q mean, median := pyRound2Q (medianQ values),
        std := pyRound2R std,
        min := pyRound2Q (vs.foldl min v), max := pyRound2Q (vs.foldl max v) }

/-- Ascending sort of reals. -/
noncomputable def sortR (l : List ℝ) : List ℝ := List.insertionSort (· ≤ ·) l

/-- Python `statistics.median` over reals. -/
noncomputable def medianR (l : List ℝ) : ℝ :=
  let s := sortR l
  let n := s.length
  if n % 2 = 1 then s.getD (n / 2) 0
  else (s.getD (n / 2 - 1) 0 + s.getD (n / 2) 0) / 2

/-- The function `calc_stats(values)` over reals. -/
noncomputable def calcStatsR (values : List ℝ) : StatBlockR :=
  match values with
  | [] => { mean := 0, median := 0, std := 0, min := 0, max := 0 }
  | v :: vs =>
      let n := values.length
      let mean := values.sum / n
      let std : ℝ :=
        if 1 < n then Real.sqrt ((values.map fun x => (x - mean) ^ 2).sum / ((n : ℝ) - 1))
        else 0
      { mean := pyRound2R mean, median := pyRound2R (medianR values),
        std := pyRound2R std,
        min := pyRound2R (vs.foldl min v), max := pyRound2R (vs.foldl max v) }

/-- Collection of `avgGi` values (line 204): Python filters with the
truthiness test `if p.get('avgGi')`, so the value 0 is dropped. -/
def giValues (ps : List PFinal) : List ℚ :=
  (ps.filter fun p => decide (p.avgGi ≠ 0)).map fun p => p.avgGi

/-- Collection of `avgMp` values (line 205), same truthiness filter. -/
def mpValues (ps : List PFinal) : List ℚ :=
  (ps.filter fun p => decide (p.avgMp ≠ 0)).map fun p => p.avgMp

/-- Collection of `elo` values (line 206), same truthiness filter. -/
def eloValues (ps : List PFinal) : List ℚ :=
  (ps.filter fun p => decide (p.elo ≠ 0)).map fun p => (p.elo : ℚ)

/-- Collection of `tpr` values (line 207), same truthiness filter. -/
noncomputable def tprValues (ps : List PFinal) : List ℝ :=
  (ps.filter fun p => decide (p.tpr ≠ 0)).map fun p => p.tpr

/-- Collection of white game-quality values (line 210). -/
def whiteGiValues (gs : List GameOut) : List ℚ :=
  (gs.filter fun g => decide (g.whiteGi ≠ 0)).map fun g => g.whiteGi

/-- Collection of black game-quality values (line 211). -/
def blackGiValues (gs : List GameOut) : List ℚ :=
  (gs.filter fun g => decide (g.blackGi ≠ 0)).map fun g => g.blackGi

/-- Collection of white missed-points values (line 212). -/
def whiteMpValues (gs : List GameOut) : List ℚ :=
  (gs.filter fun g => decide (g.whiteMp ≠ 0)).map fun g => g.whiteMp

/-- Collection of black missed-points values (line 213). -/
def blackMpValues (gs : List GameOut) : List ℚ :=
  (gs.filter fun g => decide (g.blackMp ≠ 0)).map fun g => g.blackMp

/-- Tournament summary statistics (lines 219-230). -/
structure Summary where
  totalGames : ℕ
  totalPlayers : ℕ
  avgGi : StatBlock
  avgMissedPoints : StatBlock
  avgGiWhite : StatBlock
  avgGiBlack : StatBlock
  avgMpWhite : StatBlock
  avgMpBlack : StatBlock
  elo : StatBlock
  tpr : StatBlockR

/-- Embedding of `calculate_tournament_summary_stats` (lines 176-232). -/
noncomputable def calculate_tournament_summary_stats
    (ps : List PFinal) (gs : List GameOut) : Summary :=
  let gi := giValues ps
  let mp := mpValues ps
  let wgi := whiteGiValues gs
  let bgi := blackGiValues gs
  let wmp := whiteMpValues gs
  let bmp := blackMpValues gs
  { totalGames := gs.length, totalPlayers := ps.length,
    avgGi := calcStatsQ (if gi = [] then wgi ++ bgi else gi),
    avgMissedPoints := calcStatsQ (if mp = [] then wmp ++ bmp else mp),
    avgGiWhite := calcStatsQ wgi, avgGiBlack := calcStatsQ bgi,
    avgMpWhite := calcStatsQ wmp, avgMpBlack := calcStatsQ bmp,
    elo := calcStatsQ (eloValues ps), tpr := calcStatsR (tprValues ps) }

/-! Tournament groups (lines 438-637). -/

/-- One finalized `TournamentGroup` (lines 614-626). -/
structure Tournament where
  id : Str
  name : Str
  date : Str
  gamesCount : ℕ
  totalMoves : ℤ
  playersCount : ℕ
  rounds : ℕ
  playerStats : List PFinal
  gamesList : List GameOut
  timeControl : Str
  summaryStats : Summary

/-- Process one tournament group (lines 438-626): infer the time control
from the name only when exactly one of "blitz"/"rapid" occurs, build the
identity `name.lower().replace(' ','-').replace('_','-') + '-' + control`,
fold the rows, finalize and sort the players, and compute the summary. -/
noncomputable def processGroup (dirTc name : Str) (rows : List Row) : Tournament :=
  let nameLower := name.map Char.toLower
  let hasBlitz := hasSub "blitz".data nameLower
  let hasRapid := hasSub "rapid".data nameLower
  let actualTc :=
    if hasBlitz && !hasRapid then "blitz".data
    else if hasRapid && !hasBlitz then "rapid".data
    else dirTc
  let tid := nameLower.map fun c => if c = ' ' || c = '_' then '-' else c
  let fullId := tid ++ '-' :: actualTc
  let acc := rows.foldl stepRow Acc.init
  let sorted := sortPlayers (finalizeStats acc.stats)
  { id := fullId, name := name, date := acc.firstDate,
    gamesCount := acc.games.length, totalMoves := acc.totalMoves,
    playersCount := acc.stats.length,
    rounds := (acc.stats.map fun kv => kv.2.games).foldl max 0,
    playerStats := sorted, gamesList := acc.games, timeControl := actualTc,
    summaryStats := calculate_tournament_summary_stats sorted acc.games }

/-- First pass of `load_tournament_data` for one CSV file (lines 411-433):
group the rows by resolved tournament name, in insertion order. -/
def groupByName (folder : Str) (rows : List Row) : List (Str × List Row) :=
  rows.foldl
    (fun acc r => aupd (tournamentNameForRow r.event r.site folder) [] (fun rs => rs ++ [r]) acc)
    []

/-- Second pass for one CSV file (lines 437-626): process every group,
keyed by the full tournament identity. -/
noncomputable def processFile (dirTc folder : Str) (rows : List Row) :
    List (Str × Tournament) :=
  (groupByName folder rows).map fun g =>
    let t := processGroup dirTc g.1 g.2
    (t.id, t)

/-- The whole `load_tournament_data` loop over source files (lines 398-637):
each file's groups are assigned into the shared `tournaments` dict with
plain dictionary assignment (`tournaments[full_tournament_id] = {...}`,
line 614), so a later group with an existing identity replaces the earlier
one. -/
noncomputable def processFiles (files : List (Str × Str × List Row)) :
    List (Str × Tournament) :=
  files.foldl
    (fun acc f => (processFile f.1 f.2.1 f.2.2).foldl (fun a kt => aset kt.1 kt.2 a) acc)
    []

/-! Yearly rollup (`generate_yearly_tpr_data`, lines 682-794). -/

/-- Decimal value of a digit string. -/
def digitsVal (l : Str) : ℤ := l.foldl (fun acc c => acc * 10 + ((c.toNat : ℤ) - 48)) 0

/-- Python `int(s)` on a plain decimal string: surrounding whitespace
stripped, an optional sign, then a nonempty digit run; anything else raises
(`None` here). -/
def parsePyInt (l : Str) : Option ℤ :=
  let t := ((l.dropWhile isSp).reverse.dropWhile isSp).reverse
  match t with
  | '+' :: ds => if pyIsDigit ds then some (digitsVal ds) else none
  | '-' :: ds => if pyIsDigit ds then some (-digitsVal ds) else none
  | ds => if pyIsDigit ds then some (digitsVal ds) else none

/-- Python falsy test on an optional year: `None` and `0` both fail
`if not year`. -/
def pyTruthyYear : Option ℤ → Option ℤ
  | some y => if y = 0 then none else some y
  | none => none

/-- Year resolution of the yearly rollup (lines 693-708): parse the leading
`.`-component of the tournament date as an integer; if that fails or is
falsy, take the first 4-character all-digit dash-token of the tournament
identity; if that also fails or is falsy, use the constant 2025. -/
def resolveYear (date tid : Str) : ℤ :=
  let y1 := pyTruthyYear (if date = [] then none else parsePyInt ((splitOnChar '.' date).headD []))
  let y2 :=
    match y1 with
    | some y => some y
    | none =>
        pyTruthyYear
          (((splitOnChar '-' tid).find? fun p => pyIsDigit p && decide (p.length = 4)).map digitsVal)
  y2.getD 2025

/-- Reference definition following the words of claim C4: parse the leading
`YYYY` component of the date; if that fails, take a 4-digit token of the
identity that begins with "20"; if none exists, use the current calendar
year (a parameter here). -/
def specC4Resolve (date tid : Str) (currentYear : ℤ) : ℤ :=
  match (if date = [] then none else parsePyInt ((splitOnChar '.' date).headD [])) with
  | some y => y
  | none =>
      match (splitOnChar '-' tid).find?
          (fun p => pyIsDigit p && decide (p.length = 4) && startsWithCS ['2', '0'] p) with
      | some p => digitsVal p
      | none => currentYear

/-- Year resolution as amended by claim C4's counterexample: identical to
the spec's order, except that the date stage treats a parsed year of 0 as
unresolved, the identity stage accepts any 4-digit all-digit token (not
only those beginning with "20", and with "0000" treated as unresolved),
and the final default is the constant 2025. -/
def amendedC4Fallback (tid : Str) : ℤ :=
  match (splitOnChar '-' tid).find? (fun p => pyIsDigit p && decide (p.length = 4)) with
  | some p => if digitsVal p = 0 then 2025 else digitsVal p
  | none => 2025

/-- Amended year resolution, date stage. -/
def amendedC4Resolve (date tid : Str) : ℤ :=
  match (if date = [] then none else parsePyInt ((splitOnChar '.' date).headD [])) with
  | some y => if y = 0 then amendedC4Fallback tid else y
  | none => amendedC4Fallback tid

/-- Reading the result string back in the yearly rollup (lines 731-738). -/
def decodeResult (r : Str) : ℚ × ℚ :=
  if r = "1-0".data then (1, 0) else if r = "0-1".data then (0, 1) else (1/2, 1/2)

/-- One yearly bucket (line 688-690): games, score, opponent-rating sum and
the set of contributing tournament identities (a Python `set`, modelled as
a duplicate-free list). -/
structure YBucket where
  games : ℕ
  score : ℚ
  oppEloSum : ℤ
  tournamentsSet : List Str
deriving DecidableEq

/-- The defaultdict zero bucket. -/
def YBucket.init : YBucket :=
  { games := 0, score := 0, oppEloSum := 0, tournamentsSet := [] }

/-- Python `set.add`. -/
def addIfNew (x : Str) (l : List Str) : List Str := if x ∈ l then l else l ++ [x]

/-- The nested dict `yearly_player_data`: `(year, timeControl)` to player
name to bucket. -/
abbrev YDict := List ((ℤ × Str) × List (Str × YBucket))

/-- Update one player's bucket under one `(year, timeControl)` key. -/
def updY (k : ℤ × Str) (p : Str) (f : YBucket → YBucket) (st : YDict) : YDict :=
  aupd k [] (fun inner => aupd p YBucket.init f inner) st

/-- Fold one game of a tournament into the yearly dict (lines 725-753): a
side contributes only when its player name is nonempty and the opposing
side's rating is strictly positive. -/
def yearlyStepGame (y : ℤ) (tc tid : Str) (st : YDict) (g : GameOut) : YDict :=
  let wr := (decodeResult g.result).1
  let br := (decodeResult g.result).2
  let st :=
    if !decide (g.white = []) && decide (0 < g.blackElo) then
      updY (y, tc) g.white
        (fun b => { games := b.games + 1, score := b.score + wr,
                    oppEloSum := b.oppEloSum + g.blackElo,
                    tournamentsSet := addIfNew tid b.tournamentsSet }) st
    else st
  if !decide (g.black = []) && decide (0 < g.whiteElo) then
    updY (y, tc) g.black
      (fun b => { games := b.games + 1, score := b.score + br,
                  oppEloSum := b.oppEloSum + g.whiteElo,
                  tournamentsSet := addIfNew tid b.tournamentsSet }) st
  else st

/-- Accumulate every tournament's game list into the yearly dict
(lines 692-753). -/
def buildYearly (ts : List (Str × Tournament)) : YDict :=
  ts.foldl
    (fun st kt =>
      kt.2.gamesList.foldl
        (yearlyStepGame (resolveYear kt.2.date kt.1) kt.2.timeControl kt.1) st)
    []

/-- One emitted yearly entry (lines 781-789). -/
structure YEntry where
  player : Str
  year : ℤ
  tpr : ℝ
  games : ℕ
  score : ℚ
  tournaments : ℕ
  timeControl : Str

/-- The closed-form yearly rating estimate of one bucket (lines 761-779). -/
noncomputable def yearlyTprVal (b : YBucket) : ℝ :=
  estimate_rating b.score (b.games : ℚ) ((b.oppEloSum : ℚ) / (b.games : ℚ))

/-- Emitted entry of one qualifying bucket. -/
noncomputable def mkYEntry (k : ℤ × Str) (p : Str) (b : YBucket) : YEntry :=
  { player := p, year := k.1, tpr := yearlyTprVal b, games := b.games,
    score := b.score, tournaments := b.tournamentsSet.length, timeControl := k.2 }

/-- Emission loop (lines 756-789): every bucket with at least 5 games
yields one entry, iterating keys then players in insertion order. -/
noncomputable def yearlyEntries (st : YDict) : List YEntry :=
  (st.map fun kp =>
    kp.2.filterMap fun pb =>
      if 5 ≤ pb.2.games then some (mkYEntry kp.1 pb.1 pb.2) else none).flatten

/-- The final sort `key=lambda x: -x['tpr']` (line 792). -/
def yentOrd (a b : YEntry) : Prop := -a.tpr ≤ -b.tpr

/-- Embedding of `generate_yearly_tpr_data(tournaments)` (lines 682-794). -/
noncomputable def generate_yearly_tpr_data (ts : List (Str × Tournament)) : List YEntry :=
  letI : DecidableRel yentOrd := Classical.decRel _
  List.insertionSort yentOrd (yearlyEntries (buildYearly ts))

/-- Games count of one player's bucket (0 when absent). -/
def bGames (st : YDict) (k : ℤ × Str) (p : Str) : ℕ :=
  ((alook p ((alook k st).getD [])).getD YBucket.init).games

/-- A game qualifying for the white side of a yearly bucket: the claim's
"player's name is non-empty and the opposing side's rating is strictly
positive" (claim C9). -/
def qualW (p : Str) (g : GameOut) : Bool :=
  decide (g.white = p) && !decide (p = []) && decide (0 < g.blackElo)

/-- A game qualifying for the black side of a yearly bucket. -/
def qualB (p : Str) (g : GameOut) : Bool :=
  decide (g.black = p) && !decide (p = []) && decide (0 < g.whiteElo)

/-- Reference count following the words of claim C9: the number of games,
over all tournaments resolving to the given year and time control, in which
the player appears on a side whose name is nonempty and whose opponent's
rating is strictly positive. -/
def specYearlyCount (ts : List (Str × Tournament)) (y : ℤ) (tc p : Str) : ℕ :=
  ((ts.filter fun kt =>
      decide (resolveYear kt.2.date kt.1 = y) && decide (kt.2.timeControl = tc)).map
    fun kt => kt.2.gamesList.countP (qualW p) + kt.2.gamesList.countP (qualB p)).sum

/-! Validity of raw per-side results, used as the hypothesis of the
invariant claims: each side's result is 0, 0.5 or 1. -/

/-- A row whose two per-side results are chess results. -/
def validRow (r : Row) : Prop :=
  (r.whiteResult = 0 ∨ r.whiteResult = 1/2 ∨ r.whiteResult = 1) ∧
    (r.blackResult = 0 ∨ r.blackResult = 1/2 ∨ r.blackResult = 1)

/-! Concrete sample data used by counterexamples and witnesses. -/

/-- A decisive game of an ordinary tournament row. -/
def sampleRow : Row :=
  { white := "Smith, John".data
    black := "Doe, Jane".data
    whiteResult := 1
    blackResult := 0
    whiteElo := 2000
    blackElo := 2100
    whiteGi := 1
    blackGi := 2
    whiteMp := 0
    blackMp := 1
    event := "Open 2025".data
    site := "https://example.org/x".data
    roundLbl := "1".data
    date := "2025.01.02".data
    whiteMoves := 40
    blackMoves := 40 }

/-- The same event seen in a second source file, with different players. -/
def sampleRow2 : Row :=
  { sampleRow with
      white := "Foo, Alice".data
      black := "Bar, Bob".data
      date := "2025.01.03".data }

/-- First sample source file (time control, folder, rows). -/
def sampleFile1 : Str × Str × List Row := ("classical".data, "f1".data, [sampleRow])

/-- Second sample source file, producing the same tournament identity. -/
def sampleFile2 : Str × Str × List Row := ("classical".data, "f2".data, [sampleRow2])

/-- A sample five-game tournament for the yearly-rollup witness. -/
noncomputable def sampleTournament : Tournament :=
  processGroup "classical".data "Open 2025".data
    [sampleRow, sampleRow, sampleRow, sampleRow, sampleRow]

/-- The sample tournaments dict fed to the yearly rollup. -/
noncomputable def sampleTs : List (Str × Tournament) :=
  [("open-2025-classical".data, sampleTournament)]

/-- A finalized player entry whose quality index and missed points are
exactly 0 and whose rating is nonzero. -/
noncomputable def samplePZero : PFinal :=
  { name := "Zero, Player".data, games := 2, score := 1, elo := 2200,
    avgGi := 0, avgMp := 0, tpr := 0, wins := 1, draws := 0, losses := 1,
    whiteGames := 1, blackGames := 1, avgGiWhite := 0, avgGiBlack := 0,
    avgMpWhite := 0, avgMpBlack := 0 }

/-- A finalized player entry with nonzero metrics and a zero rating. -/
noncomputable def samplePFour : PFinal :=
  { name := "Four, Player".data, games := 2, score := 1, elo := 0,
    avgGi := 4, avgMp := 3, tpr := 0, wins := 1, draws := 0, losses := 1,
    whiteGames := 1, blackGames := 1, avgGiWhite := 4, avgGiBlack := 4,
    avgMpWhite := 3, avgMpBlack := 3 }

/-- A game-list entry whose white quality index is exactly 0. -/
def sampleGZero : GameOut :=
  { white := "A".data, black := "B".data, whiteElo := 2000, blackElo := 2100,
    whiteGi := 0, blackGi := 2, whiteMp := 0, blackMp := 1,
    result := "1-0".data, roundLbl := "1".data, date := "2025.01.02".data }

/-- A game-list entry whose white quality index is 4. -/
def sampleGFour : GameOut :=
  { sampleGZero with whiteGi := 4 }

/-- Well-formedness of the nested yearly dict: outer keys are distinct and
every inner dict has distinct player keys (true of every Python dict). -/
def YInv (st : YDict) : Prop :=
  ((st.map Prod.fst).Nodup) ∧ ∀ q ∈ st, ((q.2.map Prod.fst).Nodup)

/-- The invariant of claim C5 on one player aggregate: the win/draw/loss
counters sum to the game counter, and the score lies between 0 and the
number of games. -/
def PinvS (st : PStats) : Prop :=
  st.wins + st.draws + st.losses = st.games ∧ 0 ≤ st.score ∧ st.score ≤ (st.games : ℚ)

/-- The first finalized player of the one-row sample tournament. -/
noncomputable def samplePlayer0 : PFinal :=
  (finalizeStats (([sampleRow].foldl stepRow Acc.init).stats)).get ⟨0, by decide⟩

/-! Association-list lemmas. -/

section ADictLemmas

variable {α β : Type} [DecidableEq α]

theorem alook_aupd (k k' : α) (d0 : β) (f : β → β) (m : List (α × β)) :
    alook k (aupd k' d0 f m) =
      if k = k' then some (f ((alook k' m).getD d0)) else alook k m := by
  induction m with
  | nil =>
      by_cases h : k = k' <;> simp [aupd, alook, h]
  | cons hd t ih =>
      obtain ⟨k₀, v₀⟩ := hd
      by_cases h1 : k' = k₀
      · subst h1
        by_cases h2 : k = k' <;> simp [aupd, alook, h2]
      · by_cases h2 : k = k₀
        · have h3 : ¬k = k' := fun h => h1 (h.symm.trans h2)
          have h4 : ¬k₀ = k' := fun h => h1 h.symm
          simp [aupd, alook, h1, h2, h3, h4]
        · simp [aupd, alook, h1, h2, ih]

theorem alook_aset_self (k : α) (v : β) (m : List (α × β)) :
    alook k (aset k v m) = some v := by
  simp [aset, alook_aupd]

theorem alook_aset_ne {k k' : α} (h : k ≠ k') (v : β) (m : List (α × β)) :
    alook k (aset k' v m) = alook k m := by
  simp [aset, alook_aupd, h]

theorem alook_eq_of_mem_nodup {k : α} {v : β} {m : List (α × β)}
    (hm : (k, v) ∈ m) (hn : (m.map Prod.fst).Nodup) : alook k m = some v := by
  induction m with
  | nil => cases hm
  | cons hd t ih =>
      obtain ⟨k₀, v₀⟩ := hd
      simp only [List.map_cons, List.nodup_cons] at hn
      rcases List.mem_cons.mp hm with h | h
      · obtain ⟨rfl, rfl⟩ := Prod.mk.injEq .. ▸ h
        · simp [alook]
      · have hk : k ≠ k₀ := by
          rintro rfl
          exact hn.1 (List.mem_map.mpr ⟨(k, v), h, rfl⟩)
        simp [alook, hk, ih h hn.2]

theorem alook_mem {k : α} {v : β} {m : List (α × β)} (h : alook k m = some v) :
    (k, v) ∈ m := by
  induction m with
  | nil => simp [alook] at h
  | cons hd t ih =>
      obtain ⟨k₀, v₀⟩ := hd
      by_cases hk : k = k₀
      · subst hk
        simp [alook] at h
        simp [h]
      · simp [alook, hk] at h
        exact List.mem_cons_of_mem _ (ih h)

theorem aupd_keys_of_mem {k : α} (d0 : β) (f : β → β) {m : List (α × β)}
    (h : k ∈ m.map Prod.fst) :
    (aupd k d0 f m).map Prod.fst = m.map Prod.fst := by
  induction m with
  | nil => simp at h
  | cons hd t ih =>
      obtain ⟨k₀, v₀⟩ := hd
      by_cases hk : k = k₀
      · simp [aupd, hk]
      · simp only [List.map_cons, List.mem_cons] at h
        rcases h with h | h
        · exact absurd h hk
        · simp [aupd, hk, ih h]

theorem aupd_keys_of_not_mem {k : α} (d0 : β) (f : β → β) {m : List (α × β)}
    (h : k ∉ m.map Prod.fst) :
    (aupd k d0 f m).map Prod.fst = m.map Prod.fst ++ [k] := by
  induction m with
  | nil => simp [aupd]
  | cons hd t ih =>
      obtain ⟨k₀, v₀⟩ := hd
      simp only [List.map_cons, List.mem_cons] at h
      push_neg at h
      simp [aupd, h.1, ih h.2]

theorem aupd_keys_nodup {k : α} (d0 : β) (f : β → β) {m : List (α × β)}
    (h : (m.map Prod.fst).Nodup) : ((aupd k d0 f m).map Prod.fst).Nodup := by
  by_cases hk : k ∈ m.map Prod.fst
  · rw [aupd_keys_of_mem d0 f hk]; exact h
  · rw [aupd_keys_of_not_mem d0 f hk]
    refine List.Nodup.append h (List.nodup_singleton k) ?_
    intro a ha hb
    rw [List.mem_singleton] at hb
    subst hb
    exact hk ha

theorem mem_aupd_vals {P : β → Prop} {k : α} {d0 : β} {f : β → β} {m : List (α × β)}
    (hm : ∀ q ∈ m, P q.2) (hd0 : P d0) (hf : ∀ v, P v → P (f v)) :
    ∀ q ∈ aupd k d0 f m, P q.2 := by
  induction m with
  | nil =>
      intro q hq
      simp only [aupd, List.mem_singleton] at hq
      subst hq
      exact hf d0 hd0
  | cons hd t ih =>
      obtain ⟨k₀, v₀⟩ := hd
      intro q hq
      by_cases hk : k = k₀
      · simp only [aupd, if_pos hk, List.mem_cons] at hq
        rcases hq with rfl | hq
        · exact hf v₀ (hm _ (List.mem_cons_self _ _))
        · exact hm q (List.mem_cons_of_mem _ hq)
      · simp only [aupd, if_neg hk, List.mem_cons] at hq
        rcases hq with rfl | hq
        · exact hm _ (List.mem_cons_self _ _)
        · exact ih (fun q hq => hm q (List.mem_cons_of_mem _ hq)) q hq

theorem alook_foldl_aset_of_not_mem {k : α} {L : List (α × β)} {acc : List (α × β)}
    (h : k ∉ L.map Prod.fst) :
    alook k (L.foldl (fun a kt => aset kt.1 kt.2 a) acc) = alook k acc := by
  induction L generalizing acc with
  | nil => rfl
  | cons hd t ih =>
      simp only [List.map_cons, List.mem_cons] at h
      push_neg at h
      simp only [List.foldl_cons]
      rw [ih h.2, alook_aset_ne h.1]

theorem alook_foldl_aset_of_mem {k : α} {v : β} {L : List (α × β)} {acc : List (α × β)}
    (h : (k, v) ∈ L) (hn : (L.map Prod.fst).Nodup) :
    alook k (L.foldl (fun a kt => aset kt.1 kt.2 a) acc) = some v := by
  induction L generalizing acc with
  | nil => cases h
  | cons hd t ih =>
      obtain ⟨k₀, v₀⟩ := hd
      simp only [List.map_cons, List.nodup_cons] at hn
      rcases List.mem_cons.mp h with h1 | h1
      · obtain ⟨rfl, rfl⟩ := Prod.mk.injEq .. ▸ h1
        have hk : k ∉ t.map Prod.fst := hn.1
        simp only [List.foldl_cons]
        rw [alook_foldl_aset_of_not_mem hk, alook_aset_self]
      · simp only [List.foldl_cons]
        exact ih h1 hn.2

end ADictLemmas

/-- C8: the event label "Round 5: Smith, John - Doe, Jane" is classified as
a round pairing, and the tournament name extracted from the broadcast URL
"https://lichess.org/broadcast/aeroflot-open-2025/round-5/abc123" is
"Aeroflot Open 2025". -/
theorem C8_scenario :
    is_round_pairing "Round 5: Smith, John - Doe, Jane".data = true ∧
      extract_tournament_from_url
          "https://lichess.org/broadcast/aeroflot-open-2025/round-5/abc123".data =
        some "Aeroflot Open 2025".data :=
  ⟨by rfl, by rfl⟩

/-- C2: contrary to the claim (and to the comment "zeros are valid data
points" at line 184 of the source), the Summary Builder's collection step
(lines 204-213) filters with Python truthiness, so a metric value equal to
exactly 0 in the player list or game list is dropped from the collection
over which mean/median/std/min/max are computed: with one player whose
quality index is 0 and one whose is 4, only [4] is collected, and likewise
for missed points, rating and the per-game metrics. -/
theorem C2_zero_excluded :
    giValues [samplePZero, samplePFour] = [4] ∧
      (0 : ℚ) ∉ giValues [samplePZero, samplePFour] ∧
      mpValues [samplePZero, samplePFour] = [3] ∧
      eloValues [samplePZero, samplePFour] = [2200] ∧
      whiteGiValues [sampleGZero, sampleGFour] = [4] :=
  ⟨by rfl, by decide, by rfl, by rfl, by rfl⟩

/-- C3 counterexample: two source files each producing a one-game group
with the same identity "open-2025-classical"; the final dict holds only one
game (the second file's), not the concatenation of both game lists. -/
theorem C3_counterexample :
    (alook "open-2025-classical".data (processFiles [sampleFile1, sampleFile2])).map
        (fun t => t.gamesList.length) = some 1 ∧
      (alook "open-2025-classical".data
          (processFile sampleFile1.1 sampleFile1.2.1 sampleFile1.2.2)).map
        (fun t => t.gamesList.length) = some 1 ∧
      (alook "open-2025-classical".data
          (processFile sampleFile2.1 sampleFile2.2.1 sampleFile2.2.2)).map
        (fun t => t.gamesList.length) = some 1 ∧
      (alook "open-2025-classical".data (processFiles [sampleFile1, sampleFile2])).map
          (fun t => t.gamesList) =
        (alook "open-2025-classical".data
            (processFile sampleFile2.1 sampleFile2.2.1 sampleFile2.2.2)).map
          (fun t => t.gamesList) ∧
      (1 : ℕ) ≠ 1 + 1 :=
  ⟨by rfl, by rfl, by rfl, by rfl, by decide⟩

/-- C3 as amended: when two source files produce tournament groups with the
same identity, the group processed later replaces the earlier one wholesale
(plain dict assignment at line 614); the final `TournamentGroup` for that
identity is exactly the second file's group, and game lists are not
concatenated. -/
theorem C3_amended (f1 f2 : Str × Str × List Row) (tid : Str)
    (h1 : tid ∈ (processFile f2.1 f2.2.1 f2.2.2).map Prod.fst)
    (h2 : ((processFile f2.1 f2.2.1 f2.2.2).map Prod.fst).Nodup) :
    alook tid (processFiles [f1, f2]) = alook tid (processFile f2.1 f2.2.1 f2.2.2) := by
  obtain ⟨⟨k, t⟩, hmem, rfl⟩ := List.mem_map.mp h1
  have hL : processFiles [f1, f2] =
      (processFile f2.1 f2.2.1 f2.2.2).foldl (fun a kt => aset kt.1 kt.2 a)
        ((processFile f1.1 f1.2.1 f1.2.2).foldl (fun a kt => aset kt.1 kt.2 a) []) := by
    simp [processFiles]
  rw [hL, alook_foldl_aset_of_mem hmem h2, alook_eq_of_mem_nodup hmem h2]

/-- C3 amended, witness at the two sample files. -/
theorem C3_amended_witness :
    "open-2025-classical".data ∈
        (processFile sampleFile2.1 sampleFile2.2.1 sampleFile2.2.2).map Prod.fst ∧
      alook "open-2025-classical".data (processFiles [sampleFile1, sampleFile2]) =
        alook "open-2025-classical".data
          (processFile sampleFile2.1 sampleFile2.2.1 sampleFile2.2.2) :=
  ⟨by decide, C3_amended sampleFile1 sampleFile2 "open-2025-classical".data (by decide)
    (by decide)⟩

/-- C4 counterexample: the year-resolution fallback of the yearly rollup
accepts any 4-digit token (1999, which does not begin with "20"), treats a
parsed year 0000 as unset, and defaults to the constant 2025, while the
claim's procedure would give the current calendar year (2026 at the time of
this run), the parsed 0, and the current year respectively. -/
theorem C4_counterexample :
    resolveYear [] "cup-1999-x".data = 1999 ∧
      specC4Resolve [] "cup-1999-x".data 2026 = 2026 ∧
      resolveYear "0000.01.01".data "x-2024-y".data = 2024 ∧
      specC4Resolve "0000.01.01".data "x-2024-y".data 2026 = 0 ∧
      resolveYear [] "plain".data = 2025 ∧
      specC4Resolve [] "plain".data 2026 = 2026 ∧
      (1999 : ℤ) ≠ 2026 ∧ (2024 : ℤ) ≠ 0 ∧ (2025 : ℤ) ≠ 2026 := by
  refine ⟨by rfl, by rfl, by rfl, by rfl, by rfl, by rfl, by decide, by decide, by decide⟩

/-- C4 as amended: for every tournament in the yearly rollup the year is
resolved by parsing the leading component of the first-game date (a parsed
0 counting as unresolved); else taking the first 4-digit all-digit token of
the identity, not only those beginning with "20" (0000 counting as
unresolved); else the constant 2025, not the current calendar year. -/
theorem C4_amended (date tid : Str) : resolveYear date tid = amendedC4Resolve date tid := by
  unfold resolveYear amendedC4Resolve amendedC4Fallback
  cases hp : (if date = [] then none else parsePyInt ((splitOnChar '.' date).headD [])) with
  | some y =>
      by_cases hy : y = 0
      · subst hy
        simp only [pyTruthyYear, if_pos rfl]
        cases hf : (splitOnChar '-' tid).find? (fun p => pyIsDigit p && decide (p.length = 4)) with
        | some p =>
            by_cases hz : digitsVal p = 0 <;> simp [pyTruthyYear, hz]
        | none => simp [pyTruthyYear]
      · simp [pyTruthyYear, hy]
  | none =>
      simp only [pyTruthyYear]
      cases hf : (splitOnChar '-' tid).find? (fun p => pyIsDigit p && decide (p.length = 4)) with
      | some p =>
          by_cases hz : digitsVal p = 0 <;> simp [pyTruthyYear, hz]
      | none => simp [pyTruthyYear]

/-- C4 amended, witness at a dated tournament identity. -/
theorem C4_amended_witness :
    resolveYear "2025.01.02".data "cup-1999-x".data =
      amendedC4Resolve "2025.01.02".data "cup-1999-x".data :=
  C4_amended "2025.01.02".data "cup-1999-x".data

/-- C10 counterexample: the result pair (1, 1) lies outside the valid-result
precondition, but is encoded as "1-0" and re-read as (1, 0), not as the
draw (0.5, 0.5) the claim asserts for every out-of-precondition pair. -/
theorem C10_counterexample :
    resultStr 1 1 = "1-0".data ∧
      decodeResult (resultStr 1 1) = ((1 : ℚ), (0 : ℚ)) ∧
      ¬((1 : ℚ) + 1 = 1) ∧
      ((1 : ℚ), (0 : ℚ)) ≠ ((1/2 : ℚ), (1/2 : ℚ)) :=
  ⟨by rfl, by rfl, by norm_num, by norm_num⟩

/-- C10 as amended: encoding valid result pairs (each side 0, 0.5 or 1,
summing to 1) as "1-0"/"0-1"/"½-½" and decoding in the yearly rollup
recovers the pair; for every pair, a white result equal to 1 is encoded
"1-0" and re-read as (1, 0), otherwise a black result equal to 1 is
encoded "0-1" and re-read as (0, 1), and the pair is encoded and re-read
as the draw (0.5, 0.5) exactly when neither side's result equals 1 (in
particular an out-of-precondition pair such as (0, 0) is re-read as a
draw precisely in that case). -/
theorem C10_amended (wr br : ℚ) :
    ((wr = 0 ∨ wr = 1/2 ∨ wr = 1) → (br = 0 ∨ br = 1/2 ∨ br = 1) → wr + br = 1 →
      decodeResult (resultStr wr br) = (wr, br)) ∧
      (wr = 1 → decodeResult (resultStr wr br) = (1, 0)) ∧
      (wr ≠ 1 → br = 1 → decodeResult (resultStr wr br) = (0, 1)) ∧
      (decodeResult (resultStr wr br) = (1/2, 1/2) ↔ wr ≠ 1 ∧ br ≠ 1) := by
  have hwwin : wr = 1 → decodeResult (resultStr wr br) = (1, 0) := by
    intro hw
    rw [resultStr, if_pos hw, decodeResult, if_pos rfl]
  have hbwin : wr ≠ 1 → br = 1 → decodeResult (resultStr wr br) = (0, 1) := by
    intro hw hb
    rw [resultStr, if_neg hw, if_pos hb, decodeResult, if_neg (by decide), if_pos rfl]
  have hdraw : wr ≠ 1 → br ≠ 1 → decodeResult (resultStr wr br) = (1/2, 1/2) := by
    intro hw hb
    rw [resultStr, if_neg hw, if_neg hb,
      decodeResult, if_neg (by decide), if_neg (by decide)]
  refine ⟨?_, hwwin, hbwin, ?_⟩
  · intro h1 h2 h3
    rcases h1 with rfl | rfl | rfl <;> rcases h2 with rfl | rfl | rfl
    · norm_num at h3
    · norm_num at h3
    · rw [hbwin (by norm_num) rfl]
    · norm_num at h3
    · rw [hdraw (by norm_num) (by norm_num)]
    · norm_num at h3
    · rw [hwwin rfl]
    · norm_num at h3
    · norm_num at h3
  · constructor
    · intro hd
      by_cases hw : wr = 1
      · rw [hwwin hw] at hd
        exact absurd hd (by norm_num)
      · by_cases hb : br = 1
        · rw [hbwin hw hb] at hd
          exact absurd hd (by norm_num)
        · exact ⟨hw, hb⟩
    · rintro ⟨hw, hb⟩
      exact hdraw hw hb

/-- C10 amended, witness at the draw pair (0.5, 0.5), the white win (1, 0)
and the black win (0, 1). -/
theorem C10_amended_witness :
    ((1/2 : ℚ) = 0 ∨ (1/2 : ℚ) = 1/2 ∨ (1/2 : ℚ) = 1) ∧
      (1/2 : ℚ) + 1/2 = 1 ∧
      decodeResult (resultStr (1/2) (1/2)) = ((1/2 : ℚ), (1/2 : ℚ)) ∧
      ((1 : ℚ) = 1 ∧ decodeResult (resultStr 1 0) = (1, 0)) ∧
      ((0 : ℚ) ≠ 1 ∧ (1 : ℚ) = 1 ∧ decodeResult (resultStr 0 1) = (0, 1)) ∧
      ((1/2 : ℚ) ≠ 1 ∧ (1/2 : ℚ) ≠ 1 ∧
        decodeResult (resultStr (1/2) (1/2)) = ((1/2 : ℚ), (1/2 : ℚ))) :=
  ⟨Or.inr (Or.inl rfl), by norm_num,
    (C10_amended (1/2) (1/2)).1 (Or.inr (Or.inl rfl)) (Or.inr (Or.inl rfl)) (by norm_num),
    ⟨rfl, (C10_amended 1 0).2.1 rfl⟩,
    ⟨by norm_num, rfl, (C10_amended 0 1).2.2.1 (by norm_num) rfl⟩,
    ⟨by norm_num, by norm_num,
      (C10_amended (1/2) (1/2)).2.2.2.mpr ⟨by norm_num, by norm_num⟩⟩⟩

/-! Closed-form estimator lemmas. -/

theorem estimate_rating_interior (m n avg : ℚ) (h0 : m ≠ 0) (h1 : m ≠ n) :
    estimate_rating m n avg =
      (avg : ℝ) + 400 * Real.logb 10 ((m : ℝ) / ((n : ℝ) - (m : ℝ))) := by
  rw [estimate_rating, if_neg]
  rintro (h | h)
  · exact h0 h
  · exact h1 h

theorem estimate_rating_zero (n avg : ℚ) :
    estimate_rating 0 n avg =
      (avg : ℝ) - (((n : ℝ) + 1) / (n : ℝ)) * 400 * Real.logb 10 (2 * (n : ℝ) + 1) := by
  rw [estimate_rating, if_pos (Or.inl rfl)]
  have harg : ((n : ℝ) + 0.5 - ((0 : ℚ) : ℝ)) / (((0 : ℚ) : ℝ) + 0.5) = 2 * (n : ℝ) + 1 := by
    push_cast
    rw [div_eq_iff (by norm_num : (0 : ℝ) + 0.5 ≠ 0)]
    ring
  rw [harg]

theorem estimate_rating_perfect (n avg : ℚ) (hn : 0 < n) :
    estimate_rating n n avg =
      (avg : ℝ) + (((n : ℝ) + 1) / (n : ℝ)) * 400 * Real.logb 10 (2 * (n : ℝ) + 1) := by
  have hnR : (0 : ℝ) < (n : ℝ) := by exact_mod_cast hn
  rw [estimate_rating, if_pos (Or.inr rfl)]
  have harg : ((n : ℝ) + 0.5 - (n : ℝ)) / ((n : ℝ) + 0.5) = (2 * (n : ℝ) + 1)⁻¹ := by
    rw [inv_eq_one_div, div_eq_div_iff (by linarith) (by linarith)]
    ring
  rw [harg, Real.logb_inv]
  ring

theorem estimate_rating_half_low (n avg : ℚ) (hn : 1 ≤ n) :
    estimate_rating (1/2) n avg = (avg : ℝ) - 400 * Real.logb 10 (2 * (n : ℝ) - 1) := by
  have hnR : (1 : ℝ) ≤ (n : ℝ) := by exact_mod_cast hn
  rw [estimate_rating_interior (1/2) n avg (by norm_num)
    (by intro h; rw [← h] at hn; norm_num at hn)]
  have harg : (((1/2 : ℚ)) : ℝ) / ((n : ℝ) - (((1/2 : ℚ)) : ℝ)) = (2 * (n : ℝ) - 1)⁻¹ := by
    push_cast
    rw [inv_eq_one_div, div_eq_div_iff (by linarith) (by linarith)]
    ring
  rw [harg, Real.logb_inv]
  ring

theorem estimate_rating_half_high (n avg : ℚ) (hn : 1 ≤ n) :
    estimate_rating (n - 1/2) n avg = (avg : ℝ) + 400 * Real.logb 10 (2 * (n : ℝ) - 1) := by
  have hnR : (1 : ℝ) ≤ (n : ℝ) := by exact_mod_cast hn
  rw [estimate_rating_interior (n - 1/2) n avg
    (by intro h; rw [sub_eq_zero] at h; rw [h] at hn; norm_num at hn)
    (by intro h; rw [sub_eq_self] at h; norm_num at h)]
  have harg : ((n - 1/2 : ℚ) : ℝ) / ((n : ℝ) - ((n - 1/2 : ℚ) : ℝ)) = 2 * (n : ℝ) - 1 := by
    push_cast
    rw [div_eq_iff (by norm_num : (n : ℝ) - ((n : ℝ) - 1/2) ≠ 0)]
    ring
  rw [harg]

theorem logb_key_ineq (x : ℝ) (hx : 1 ≤ x) :
    400 * Real.logb 10 (2 * x - 1) <
      ((x + 1) / x) * 400 * Real.logb 10 (2 * x + 1) := by
  have h1 : (0 : ℝ) < 2 * x - 1 := by linarith
  have h2 : Real.logb 10 (2 * x - 1) < Real.logb 10 (2 * x + 1) :=
    Real.logb_lt_logb (by norm_num) h1 (by linarith)
  have h3 : 0 ≤ Real.logb 10 (2 * x + 1) := Real.logb_nonneg (by norm_num) (by linarith)
  have h4 : 1 ≤ (x + 1) / x := by
    rw [le_div_iff₀ (by linarith)]
    linarith
  have h5 : Real.logb 10 (2 * x + 1) ≤ (x + 1) / x * Real.logb 10 (2 * x + 1) :=
    le_mul_of_one_le_left h3 h4
  nlinarith [h2, h5]

theorem interior_lt_interior (n avg s₁ s₂ : ℚ) (h1 : 0 < s₁) (h2 : s₁ < s₂) (h3 : s₂ < n) :
    estimate_rating s₁ n avg < estimate_rating s₂ n avg := by
  rw [estimate_rating_interior s₁ n avg (ne_of_gt h1) (ne_of_lt (h2.trans h3)),
    estimate_rating_interior s₂ n avg (ne_of_gt (h1.trans h2)) (ne_of_lt h3)]
  have c1 : (0 : ℝ) < (s₁ : ℝ) := by exact_mod_cast h1
  have c2 : (s₁ : ℝ) < (s₂ : ℝ) := by exact_mod_cast h2
  have c3 : (s₂ : ℝ) < (n : ℝ) := by exact_mod_cast h3
  have hd1 : (0 : ℝ) < (n : ℝ) - (s₁ : ℝ) := by linarith
  have hd2 : (0 : ℝ) < (n : ℝ) - (s₂ : ℝ) := by linarith
  have hx : (0 : ℝ) < (s₁ : ℝ) / ((n : ℝ) - (s₁ : ℝ)) := div_pos c1 hd1
  have hxy : (s₁ : ℝ) / ((n : ℝ) - (s₁ : ℝ)) < (s₂ : ℝ) / ((n : ℝ) - (s₂ : ℝ)) := by
    rw [div_lt_div_iff₀ hd1 hd2]
    nlinarith [mul_pos (sub_pos.mpr c2) (show (0 : ℝ) < (n : ℝ) by linarith)]
  have := Real.logb_lt_logb (b := 10) (by norm_num) hx hxy
  linarith

theorem interior_le_interior (n avg s₁ s₂ : ℚ) (h1 : 0 < s₁) (h2 : s₁ ≤ s₂) (h3 : s₂ < n) :
    estimate_rating s₁ n avg ≤ estimate_rating s₂ n avg := by
  rcases eq_or_lt_of_le h2 with rfl | h
  · exact le_refl _
  · exact (interior_lt_interior n avg s₁ s₂ h1 h h3).le

/-- C1 counterexample: at a perfect score of 3 out of 3 games against
2000-rated opposition, the code's estimate (2000 plus a positive correction)
differs from the spec formula with its stated sign convention (2000 minus
the same correction). -/
theorem C1_counterexample : estimate_rating 3 3 2000 ≠ specC1Rating 3 3 2000 := by
  have hL : 0 < Real.logb 10 7 := Real.logb_pos (by norm_num) (by norm_num)
  have hcode : estimate_rating 3 3 2000 = 2000 + (4 / 3 : ℝ) * 400 * Real.logb 10 7 := by
    rw [estimate_rating_perfect 3 2000 (by norm_num)]
    norm_num
  have hspec : specC1Rating 3 3 2000 = 2000 - (4 / 3 : ℝ) * 400 * Real.logb 10 7 := by
    rw [specC1Rating, if_neg (by norm_num), if_pos rfl]
    have harg : (((3 : ℚ) : ℝ) + 0.5 - ((3 : ℚ) : ℝ)) / (((3 : ℚ) : ℝ) + 0.5) = (7 : ℝ)⁻¹ := by
      norm_num
    rw [harg, Real.logb_inv]
    norm_num
  rw [hcode, hspec]
  intro h
  have hpos : (0 : ℝ) < (4 / 3 : ℝ) * 400 * Real.logb 10 7 := by positivity
  linarith

/-- C1 as amended: the closed-form estimator matches the spec formula with
sign +1 in BOTH degenerate cases (equivalently, the single symmetric
formula): for `0 < score < games` it is
`avg + 400*log10(score/(games-score))`, and for a zero or perfect score it
is `avg - ((games+1)/games) * 400 * log10((games+0.5-score)/(score+0.5))`
with no sign flip. -/
theorem C1_amended (m n avg : ℚ) (_hn : 0 < n) (_h0 : 0 ≤ m) (_h1 : m ≤ n) :
    (0 < m → m < n →
      estimate_rating m n avg =
        (avg : ℝ) + 400 * Real.logb 10 ((m : ℝ) / ((n : ℝ) - (m : ℝ)))) ∧
      ((m = 0 ∨ m = n) →
        estimate_rating m n avg =
          (avg : ℝ) - (((n : ℝ) + 1) / (n : ℝ)) * 400 *
            Real.logb 10 (((n : ℝ) + 1/2 - (m : ℝ)) / ((m : ℝ) + 1/2))) := by
  constructor
  · intro hm hmn
    exact estimate_rating_interior m n avg (ne_of_gt hm) (ne_of_lt hmn)
  · intro hd
    rw [estimate_rating, if_pos hd]
    norm_num

/-- C1 amended, witness at one win out of two games. -/
theorem C1_amended_witness :
    (0 : ℚ) < 2 ∧ (0 : ℚ) ≤ 1 ∧ (1 : ℚ) ≤ 2 ∧ (0 : ℚ) < 1 ∧ (1 : ℚ) < 2 ∧
      estimate_rating 1 2 0 =
        ((0 : ℚ) : ℝ) + 400 * Real.logb 10 (((1 : ℚ) : ℝ) / (((2 : ℚ) : ℝ) - ((1 : ℚ) : ℝ))) :=
  ⟨by norm_num, by norm_num, by norm_num, by norm_num, by norm_num,
    (C1_amended 1 2 0 (by norm_num) (by norm_num) (by norm_num)).1 (by norm_num) (by norm_num)⟩

/-- C6: with games and average opponent rating fixed, the closed-form
estimator is strictly increasing on interior scores; the zero-score
estimate is strictly below the estimate at every valid (half-point)
interior score and the perfect-score estimate strictly above it; and a
perfect 3/3 against 2000-rated opposition yields an estimate strictly
above 2000 (a finite real number by construction). -/
theorem C6_estimator_shape (g : ℕ) (hg : 1 ≤ g) (avg s₁ s₂ : ℚ)
    (h1 : 0 < s₁) (h2 : s₁ < s₂) (h3 : s₂ < (g : ℚ))
    (k : ℕ) (hk1 : 1 ≤ k) (hk2 : k ≤ 2 * g - 1) :
    estimate_rating s₁ (g : ℚ) avg < estimate_rating s₂ (g : ℚ) avg ∧
      estimate_rating 0 (g : ℚ) avg < estimate_rating ((k : ℚ) / 2) (g : ℚ) avg ∧
      estimate_rating ((k : ℚ) / 2) (g : ℚ) avg < estimate_rating (g : ℚ) (g : ℚ) avg ∧
      2000 < estimate_rating 3 3 2000 := by
  have hgQ : (1 : ℚ) ≤ (g : ℚ) := by exact_mod_cast hg
  have hgR : (1 : ℝ) ≤ ((g : ℚ) : ℝ) := by exact_mod_cast hgQ
  have hkQ : (k : ℚ) ≤ 2 * (g : ℚ) - 1 := by
    have h := (Nat.cast_le (α := ℚ)).mpr hk2
    push_cast [Nat.cast_sub (show 1 ≤ 2 * g by omega)] at h
    exact h
  have hk1Q : (1 : ℚ) ≤ (k : ℚ) := by exact_mod_cast hk1
  have hmid1 : (0 : ℚ) < 1/2 := by norm_num
  have hmidK : (1/2 : ℚ) ≤ (k : ℚ) / 2 := by linarith
  have hKtop : ((k : ℚ) / 2) ≤ (g : ℚ) - 1/2 := by linarith
  have hKlt : ((k : ℚ) / 2) < (g : ℚ) := by linarith
  have hkey := logb_key_ineq ((g : ℚ) : ℝ) hgR
  refine ⟨interior_lt_interior (g : ℚ) avg s₁ s₂ h1 h2 h3, ?_, ?_, ?_⟩
  · have e0 := estimate_rating_zero (g : ℚ) avg
    have eh := estimate_rating_half_low (g : ℚ) avg hgQ
    have hle := interior_le_interior (g : ℚ) avg (1/2) ((k : ℚ) / 2) hmid1 hmidK hKlt
    have : estimate_rating 0 (g : ℚ) avg < estimate_rating (1/2) (g : ℚ) avg := by
      rw [e0, eh]
      linarith
    linarith
  · have ep := estimate_rating_perfect (g : ℚ) avg (by linarith)
    have eh := estimate_rating_half_high (g : ℚ) avg hgQ
    have hle := interior_le_interior (g : ℚ) avg ((k : ℚ) / 2) ((g : ℚ) - 1/2)
      (by linarith) hKtop (by linarith)
    have : estimate_rating ((g : ℚ) - 1/2) (g : ℚ) avg < estimate_rating (g : ℚ) (g : ℚ) avg := by
      rw [ep, eh]
      linarith
    linarith
  · have hp := estimate_rating_perfect 3 2000 (by norm_num)
    have hL : 0 < Real.logb 10 7 := Real.logb_pos (by norm_num) (by norm_num)
    rw [hp]
    have h7 : (2 * ((3 : ℚ) : ℝ) + 1) = 7 := by norm_num
    rw [h7]
    have hpos : (0 : ℝ) < (((3 : ℚ) : ℝ) + 1) / ((3 : ℚ) : ℝ) * 400 * Real.logb 10 7 := by
      have : (0 : ℝ) < (((3 : ℚ) : ℝ) + 1) / ((3 : ℚ) : ℝ) := by norm_num
      positivity
    push_cast at hpos ⊢
    linarith

/-- C6 witness: two games, scores one half and one, and the half-point
interior score k = 1. -/
theorem C6_estimator_shape_witness :
    (1 ≤ 2) ∧ (0 : ℚ) < 1/2 ∧ (1/2 : ℚ) < 1 ∧ (1 : ℚ) < ((2 : ℕ) : ℚ) ∧ 1 ≤ 1 ∧
        1 ≤ 2 * 2 - 1 ∧
      (estimate_rating (1/2) ((2 : ℕ) : ℚ) 0 < estimate_rating 1 ((2 : ℕ) : ℚ) 0 ∧
        estimate_rating 0 ((2 : ℕ) : ℚ) 0 <
          estimate_rating (((1 : ℕ) : ℚ) / 2) ((2 : ℕ) : ℚ) 0 ∧
        estimate_rating (((1 : ℕ) : ℚ) / 2) ((2 : ℕ) : ℚ) 0 <
          estimate_rating ((2 : ℕ) : ℚ) ((2 : ℕ) : ℚ) 0 ∧
        2000 < estimate_rating 3 3 2000) :=
  ⟨by norm_num, by norm_num, by norm_num, by norm_num, by norm_num, by norm_num,
    C6_estimator_shape 2 (by norm_num) 0 (1/2) 1 (by norm_num) (by norm_num) (by norm_num)
      1 (by norm_num) (by norm_num)⟩

/-! Player-aggregate invariant (claim C5). -/

theorem PinvS_init : PinvS PStats.init := by
  refine ⟨rfl, le_refl 0, ?_⟩
  norm_num [PStats.init]

theorem updWhite_pres (r : Row) (st : PStats)
    (hv : r.whiteResult = 0 ∨ r.whiteResult = 1/2 ∨ r.whiteResult = 1)
    (h : PinvS st) : PinvS (updWhite r st) := by
  obtain ⟨h1, h2, h3⟩ := h
  rcases hv with hw | hw | hw <;>
    · simp only [PinvS, updWhite, hw]
      norm_num
      refine ⟨by omega, by linarith, by first | linarith | (push_cast; linarith)⟩

theorem updBlack_pres (r : Row) (st : PStats)
    (hv : r.blackResult = 0 ∨ r.blackResult = 1/2 ∨ r.blackResult = 1)
    (h : PinvS st) : PinvS (updBlack r st) := by
  obtain ⟨h1, h2, h3⟩ := h
  rcases hv with hw | hw | hw <;>
    · simp only [PinvS, updBlack, hw]
      norm_num
      refine ⟨by omega, by linarith, by first | linarith | (push_cast; linarith)⟩

theorem statsStep_pres (d : List (Str × PStats)) (r : Row) (hv : validRow r)
    (hd : ∀ q ∈ d, PinvS q.2) : ∀ q ∈ statsStep d r, PinvS q.2 := by
  have hw : ∀ q ∈ (if r.white = [] then d else aupd r.white PStats.init (updWhite r) d),
      PinvS q.2 := by
    by_cases h : r.white = []
    · rw [if_pos h]
      exact hd
    · rw [if_neg h]
      exact mem_aupd_vals hd PinvS_init (fun v hpv => updWhite_pres r v hv.1 hpv)
  show ∀ q ∈ (if r.black = [] then (if r.white = [] then d else aupd r.white PStats.init (updWhite r) d)
      else aupd r.black PStats.init (updBlack r)
        (if r.white = [] then d else aupd r.white PStats.init (updWhite r) d)), PinvS q.2
  by_cases h : r.black = []
  · rw [if_pos h]
    exact hw
  · rw [if_neg h]
    exact mem_aupd_vals hw PinvS_init (fun v hpv => updBlack_pres r v hv.2 hpv)

theorem foldl_statsStep_pres (rows : List Row) (d : List (Str × PStats))
    (hv : ∀ r ∈ rows, validRow r) (hd : ∀ q ∈ d, PinvS q.2) :
    ∀ q ∈ rows.foldl statsStep d, PinvS q.2 := by
  induction rows generalizing d with
  | nil =>
      simp only [List.foldl_nil]
      exact hd
  | cons r rs ih =>
      simp only [List.foldl_cons]
      exact ih _ (fun x hx => hv x (List.mem_cons_of_mem _ hx))
        (statsStep_pres d r (hv r (List.mem_cons_self _ _)) hd)

theorem foldl_stepRow_stats (rows : List Row) (a : Acc) :
    (rows.foldl stepRow a).stats = rows.foldl statsStep a.stats := by
  induction rows generalizing a with
  | nil => rfl
  | cons r rs ih => simpa using ih (stepRow a r)

theorem mem_sortPlayers {p : PFinal} {l : List PFinal} : p ∈ sortPlayers l ↔ p ∈ l := by
  letI : DecidableRel playerOrd := Classical.decRel _
  unfold sortPlayers
  exact List.mem_insertionSort playerOrd

theorem mem_finalizeStats {p : PFinal} {d : List (Str × PStats)}
    (hp : p ∈ finalizeStats d) :
    ∃ q ∈ d, q.2.games ≠ 0 ∧ p.games = q.2.games ∧ p.score = q.2.score ∧
      p.wins = q.2.wins ∧ p.draws = q.2.draws ∧ p.losses = q.2.losses := by
  obtain ⟨q, hq, hf⟩ := List.mem_filterMap.mp hp
  by_cases hz : q.2.games = 0
  · simp [hz] at hf
  · refine ⟨q, hq, hz, ?_⟩
    simp only [if_neg hz, Option.some.injEq] at hf
    subst hf
    exact ⟨rfl, rfl, rfl, rfl, rfl⟩

/-- C5: every finalized PlayerAggregate obtained by folding a tournament's
game records (each side's result being 0, 0.5 or 1) satisfies
`wins + draws + losses = games` and `0 ≤ score ≤ games`. -/
theorem C5_invariant (dirTc name : Str) (rows : List Row)
    (hv : ∀ r ∈ rows, validRow r) :
    ∀ p ∈ (processGroup dirTc name rows).playerStats,
      p.wins + p.draws + p.losses = p.games ∧ 0 ≤ p.score ∧ p.score ≤ (p.games : ℚ) := by
  intro p hp
  have hp2 : p ∈ finalizeStats ((rows.foldl stepRow Acc.init).stats) := by
    have hsorted : (processGroup dirTc name rows).playerStats =
        sortPlayers (finalizeStats ((rows.foldl stepRow Acc.init).stats)) := rfl
    rw [hsorted] at hp
    exact mem_sortPlayers.mp hp
  rw [foldl_stepRow_stats rows Acc.init] at hp2
  obtain ⟨q, hq, _, hg, hs, hw, hd, hl⟩ := mem_finalizeStats hp2
  have hinv : PinvS q.2 :=
    foldl_statsStep_pres rows [] hv (by intro x hx; cases hx) q hq
  obtain ⟨h1, h2, h3⟩ := hinv
  rw [hg, hs, hw, hd, hl]
  exact ⟨h1, h2, h3⟩

/-- C5 witness: the one-row sample tournament. -/
theorem C5_invariant_witness :
    (∀ r ∈ [sampleRow], validRow r) ∧
      (samplePlayer0.wins + samplePlayer0.draws + samplePlayer0.losses = samplePlayer0.games ∧
        0 ≤ samplePlayer0.score ∧ samplePlayer0.score ≤ (samplePlayer0.games : ℚ)) := by
  have hv : ∀ r ∈ [sampleRow], validRow r := by
    intro r hr
    rw [List.mem_singleton] at hr
    subst hr
    exact ⟨Or.inr (Or.inr rfl), Or.inl rfl⟩
  refine ⟨hv, ?_⟩
  have hmem : samplePlayer0 ∈
      (processGroup "classical".data "Open 2025".data [sampleRow]).playerStats := by
    have hsorted : (processGroup "classical".data "Open 2025".data [sampleRow]).playerStats =
        sortPlayers (finalizeStats (([sampleRow].foldl stepRow Acc.init).stats)) := rfl
    rw [hsorted]
    exact mem_sortPlayers.mpr (List.get_mem _ _ _)
  exact C5_invariant "classical".data "Open 2025".data [sampleRow] hv samplePlayer0 hmem

/-! Character requirements of the pairing patterns (claim C7). -/

theorem ciEq_eq {p c : Char} (hp : isLowerA p = false) (h : ciEq p c = true) : c = p := by
  simp only [ciEq, hp, Bool.false_and, Bool.or_false, decide_eq_true_eq] at h
  exact h

theorem dropLitCI_suffix {s l r : Str} (h : dropLitCI s l = some r) : r <:+ l := by
  induction s generalizing l with
  | nil =>
      simp only [dropLitCI, Option.some.injEq] at h
      exact h ▸ List.suffix_refl r
  | cons p ps ih =>
      cases l with
      | nil => cases h
      | cons c cs =>
          simp only [dropLitCI] at h
          by_cases hc : ciEq p c = true
          · rw [if_pos hc] at h
            exact (ih h).trans (List.suffix_cons c cs)
          · rw [if_neg hc] at h
            cases h

theorem dropLitCS_suffix {s l r : Str} (h : dropLitCS s l = some r) : r <:+ l := by
  induction s generalizing l with
  | nil =>
      simp only [dropLitCS, Option.some.injEq] at h
      exact h ▸ List.suffix_refl r
  | cons p ps ih =>
      cases l with
      | nil => cases h
      | cons c cs =>
          simp only [dropLitCS] at h
          by_cases hc : c = p
          · rw [if_pos hc] at h
            exact (ih h).trans (List.suffix_cons c cs)
          · rw [if_neg hc] at h
            cases h

theorem dropLitCI_mem {s l r : Str} (h : dropLitCI s l = some r) :
    ∀ c ∈ s, isLowerA c = false → c ∈ l := by
  induction s generalizing l with
  | nil => intro c hc; cases hc
  | cons p ps ih =>
      cases l with
      | nil => cases h
      | cons c₀ cs =>
          simp only [dropLitCI] at h
          by_cases hc : ciEq p c₀ = true
          · rw [if_pos hc] at h
            intro c hcs hlow
            rcases List.mem_cons.mp hcs with rfl | hmem
            · exact List.mem_cons.mpr (Or.inl (ciEq_eq hlow hc).symm)
            · exact List.mem_cons_of_mem _ (ih h c hmem hlow)
          · rw [if_neg hc] at h
            cases h

theorem dropLitCS_mem {s l r : Str} (h : dropLitCS s l = some r) : ∀ c ∈ s, c ∈ l := by
  induction s generalizing l with
  | nil => intro c hc; cases hc
  | cons p ps ih =>
      cases l with
      | nil => cases h
      | cons c₀ cs =>
          simp only [dropLitCS] at h
          by_cases hc : c₀ = p
          · rw [if_pos hc] at h
            intro c hcs
            rcases List.mem_cons.mp hcs with rfl | hmem
            · exact List.mem_cons.mpr (Or.inl hc.symm)
            · exact List.mem_cons_of_mem _ (ih h c hmem)
          · rw [if_neg hc] at h
            cases h

theorem matchTok_suffix {t : Tok} {l r : Str} (h : matchTok t l = some r) : r <:+ l := by
  cases t with
  | lit s => exact dropLitCI_suffix h
  | litCS s => exact dropLitCS_suffix h
  | sp1 =>
      cases l with
      | nil => cases h
      | cons c cs =>
          simp only [matchTok] at h
          by_cases hc : isSp c = true
          · rw [if_pos hc] at h
            obtain rfl := Option.some.injEq .. ▸ h
            exact (List.dropWhile_suffix isSp).trans (List.suffix_cons c cs)
          · rw [if_neg hc] at h
            cases h
  | sp0 =>
      simp only [matchTok, Option.some.injEq] at h
      exact h ▸ List.dropWhile_suffix isSp
  | digits1 =>
      cases l with
      | nil => cases h
      | cons c cs =>
          simp only [matchTok] at h
          by_cases hc : c.isDigit = true
          · rw [if_pos hc] at h
            obtain rfl := Option.some.injEq .. ▸ h
            exact (List.dropWhile_suffix Char.isDigit).trans (List.suffix_cons c cs)
          · rw [if_neg hc] at h
            cases h
  | opt s =>
      simp only [matchTok] at h
      cases hd : dropLitCI s l with
      | some r₁ =>
          rw [hd] at h
          obtain rfl := Option.some.injEq .. ▸ h
          exact dropLitCI_suffix hd
      | none =>
          rw [hd] at h
          obtain rfl := Option.some.injEq .. ▸ h
          exact List.suffix_refl l
  | upper1 =>
      cases l with
      | nil => cases h
      | cons c cs =>
          simp only [matchTok] at h
          by_cases hc : isUpperA c = true
          · rw [if_pos hc] at h
            obtain rfl := Option.some.injEq .. ▸ h
            exact List.suffix_cons c cs
          · rw [if_neg hc] at h
            cases h
  | lower1 =>
      cases l with
      | nil => cases h
      | cons c cs =>
          simp only [matchTok] at h
          by_cases hc : isLowerA c = true
          · rw [if_pos hc] at h
            obtain rfl := Option.some.injEq .. ▸ h
            exact (List.dropWhile_suffix isLowerA).trans (List.suffix_cons c cs)
          · rw [if_neg hc] at h
            cases h
  | eos =>
      cases l with
      | nil =>
          simp only [matchTok, Option.some.injEq] at h
          exact h ▸ List.suffix_refl []
      | cons c cs => cases h

theorem matchToks_suffix {ts : List Tok} {l r : Str} (h : matchToks ts l = some r) :
    r <:+ l := by
  induction ts generalizing l with
  | nil =>
      simp only [matchToks, Option.some.injEq] at h
      exact h ▸ List.suffix_refl r
  | cons t ts' ih =>
      simp only [matchToks] at h
      cases ht : matchTok t l with
      | none => rw [ht] at h; cases h
      | some r₁ =>
          rw [ht] at h
          exact (ih h).trans (matchTok_suffix ht)

theorem matchToks_mem_lit {ts : List Tok} {l r s : Str} {c : Char}
    (h : matchToks ts l = some r) (hts : Tok.lit s ∈ ts) (hcs : c ∈ s)
    (hlow : isLowerA c = false) : c ∈ l := by
  induction ts generalizing l with
  | nil => cases hts
  | cons t ts' ih =>
      simp only [matchToks] at h
      cases ht : matchTok t l with
      | none => rw [ht] at h; cases h
      | some r₁ =>
          rw [ht] at h
          rcases List.mem_cons.mp hts with rfl | hmem
          · exact dropLitCI_mem ht c hcs hlow
          · exact (matchTok_suffix ht).mem (ih h hmem)

theorem matchToks_mem_litCS {ts : List Tok} {l r s : Str} {c : Char}
    (h : matchToks ts l = some r) (hts : Tok.litCS s ∈ ts) (hcs : c ∈ s) : c ∈ l := by
  induction ts generalizing l with
  | nil => cases hts
  | cons t ts' ih =>
      simp only [matchToks] at h
      cases ht : matchTok t l with
      | none => rw [ht] at h; cases h
      | some r₁ =>
          rw [ht] at h
          rcases List.mem_cons.mp hts with rfl | hmem
          · exact dropLitCS_mem ht c hcs
          · exact (matchTok_suffix ht).mem (ih h hmem)

theorem hasSub_mem {pat l : Str} (h : hasSub pat l = true) : ∀ c ∈ pat, c ∈ l := by
  induction l with
  | nil =>
      simp only [hasSub, startsWithCS] at h
      cases hd : dropLitCS pat [] with
      | none => rw [hd] at h; cases h
      | some r => exact fun c hc => dropLitCS_mem hd c hc
  | cons c₀ cs ih =>
      simp only [hasSub, Bool.or_eq_true] at h
      rcases h with h | h
      · simp only [startsWithCS] at h
        cases hd : dropLitCS pat (c₀ :: cs) with
        | none => rw [hd] at h; cases h
        | some r => exact fun c hc => dropLitCS_mem hd c hc
      · exact fun c hc => List.mem_cons_of_mem _ (ih h c hc)

theorem pairingPats_colon_pipe :
    ∀ ts ∈ pairingPats, Tok.lit [':'] ∈ ts ∨ Tok.lit ['|'] ∈ ts := by decide

theorem is_round_pairing_chars {l : Str} (h : is_round_pairing l = true) :
    ':' ∈ l ∨ '|' ∈ l ∨ ',' ∈ l := by
  rw [is_round_pairing] at h
  by_cases hnil : l = []
  · rw [if_pos hnil] at h
    cases h
  · rw [if_neg hnil] at h
    simp only [Bool.or_eq_true] at h
    rcases h with ((h | h) | h) | h
    · simp only [anyPat, List.any_eq_true] at h
      obtain ⟨ts, hts, hsome⟩ := h
      obtain ⟨r, hr⟩ := Option.isSome_iff_exists.mp hsome
      rcases pairingPats_colon_pipe ts hts with hc | hc
      · exact Or.inl (matchToks_mem_lit hr hc (List.mem_singleton_self ':') (by decide))
      · exact Or.inr (Or.inl (matchToks_mem_lit hr hc (List.mem_singleton_self '|') (by decide)))
    · exact Or.inl (hasSub_mem h ':' (by decide))
    · exact Or.inl (hasSub_mem h ':' (by decide))
    · obtain ⟨r, hr⟩ := Option.isSome_iff_exists.mp h
      exact Or.inr (Or.inr (matchToks_mem_litCS hr (by decide) (List.mem_singleton_self ',')))

/-! Nonemptiness of extracted tournament names. -/

theorem formatWord_ne_nil {w : Str} (hw : w ≠ []) : formatWord w ≠ [] := by
  unfold formatWord
  split_ifs
  · intro hc
    exact hw (List.map_eq_nil_iff.mp hc)
  · exact hw
  · intro hc
    exact hw (List.map_eq_nil_iff.mp hc)
  · cases w with
    | nil => exact absurd rfl hw
    | cons c r => simp [pyCapitalize]

theorem joinSpace_ne_nil {ws : List Str} (h : ws ≠ []) (hall : ∀ w ∈ ws, w ≠ []) :
    joinSpace ws ≠ [] := by
  match ws with
  | [] => exact absurd rfl h
  | [w] =>
      show w ≠ []
      exact hall w (List.mem_singleton_self w)
  | w :: x :: r =>
      show w ++ ' ' :: joinSpace (x :: r) ≠ []
      simp

theorem formatSlug_name_ne_nil {slug name : Str} (h : formatSlug slug = some name) :
    name ≠ [] := by
  unfold formatSlug at h
  by_cases hfw : formatWords slug = []
  · rw [if_pos hfw] at h
    cases h
  · rw [if_neg hfw] at h
    obtain rfl := Option.some.injEq .. ▸ h
    refine joinSpace_ne_nil hfw ?_
    intro w hw
    obtain ⟨w₀, hw₀, rfl⟩ := List.mem_map.mp hw
    have := List.mem_filter.mp hw₀
    refine formatWord_ne_nil ?_
    simpa using this.2

theorem extract_name_ne_nil {url name : Str}
    (h : extract_tournament_from_url url = some name) : name ≠ [] := by
  unfold extract_tournament_from_url at h
  by_cases hu : url = []
  · rw [if_pos hu] at h
    cases h
  · rw [if_neg hu] at h
    cases hs : slugOf url with
    | none => rw [hs] at h; cases h
    | some slug =>
        rw [hs] at h
        exact formatSlug_name_ne_nil h

/-- C7 counterexample: the pairing label "Round 1: Smith, John - Doe, Jane"
with source URL "https://lichess.org/broadcast/round-5:x/r1/g" extracts the
tournament name "Round 5:x", and re-running the pairing check on that name
returns true, not false — the round-trip fails because the broadcast slug
may contain a colon. -/
theorem C7_counterexample :
    is_round_pairing "Round 1: Smith, John - Doe, Jane".data = true ∧
      extract_tournament_from_url "https://lichess.org/broadcast/round-5:x/r1/g".data =
        some "Round 5:x".data ∧
      is_round_pairing "Round 5:x".data = true :=
  ⟨by rfl, by rfl, by rfl⟩

/-- C7 as amended: for every URL from which the classifier extracts a
tournament name containing no colon, pipe or comma, re-running the pairing
check on the name returns false, and reclassifying with the name as the
literal event label uses it verbatim as the tournament name. -/
theorem C7_amended (url name url2 folder : Str)
    (h1 : extract_tournament_from_url url = some name)
    (h2 : ':' ∉ name) (h3 : '|' ∉ name) (h4 : ',' ∉ name) :
    is_round_pairing name = false ∧ tournamentNameForRow name url2 folder = name := by
  have hpair : is_round_pairing name = false := by
    cases hb : is_round_pairing name
    · rfl
    · rcases is_round_pairing_chars hb with hc | hc | hc
      · exact absurd hc h2
      · exact absurd hc h3
      · exact absurd hc h4
  have hne : name ≠ [] := extract_name_ne_nil h1
  refine ⟨hpair, ?_⟩
  rw [tournamentNameForRow, hpair]
  simp [hne]

/-- C7 amended, witness at the slug "city-open". -/
theorem C7_amended_witness :
    extract_tournament_from_url "https://lichess.org/broadcast/city-open/r/g".data =
        some "City Open".data ∧
      is_round_pairing "City Open".data = false ∧
      tournamentNameForRow "City Open".data "u".data "f".data = "City Open".data := by
  have h := C7_amended "https://lichess.org/broadcast/city-open/r/g".data
    "City Open".data "u".data "f".data (by rfl) (by decide) (by decide) (by decide)
  exact ⟨by rfl, h.1, h.2⟩

/-! Yearly bucket counting (claim C9). -/

theorem bGames_updY (k' : ℤ × Str) (p' : Str) (f : YBucket → YBucket)
    (hf : ∀ b, (f b).games = b.games + 1) (st : YDict) (k : ℤ × Str) (p : Str) :
    bGames (updY k' p' f st) k p = bGames st k p + (if k = k' ∧ p = p' then 1 else 0) := by
  unfold bGames updY
  rw [alook_aupd]
  by_cases hk : k = k'
  · rw [if_pos hk]
    simp only [Option.getD_some]
    rw [alook_aupd]
    by_cases hp : p = p'
    · rw [if_pos hp, if_pos ⟨hk, hp⟩]
      simp only [Option.getD_some, hf]
      subst hk
      subst hp
      rfl
    · rw [if_neg hp, if_neg (fun hc => hp hc.2)]
      subst hk
      simp
  · rw [if_neg hk, if_neg (fun hc => hk hc.1)]
    simp

theorem bGames_condUpd (cond : Bool) (k' : ℤ × Str) (p' : Str) (f : YBucket → YBucket)
    (hf : ∀ b, (f b).games = b.games + 1) (st : YDict) (k : ℤ × Str) (p : Str) :
    bGames (if cond then updY k' p' f st else st) k p =
      bGames st k p + (if cond = true ∧ k = k' ∧ p = p' then 1 else 0) := by
  cases cond with
  | false => simp
  | true => simp [bGames_updY k' p' f hf st k p]

theorem bGames_stepGame (y : ℤ) (tc tid : Str) (st : YDict) (g : GameOut)
    (k : ℤ × Str) (p : Str) :
    bGames (yearlyStepGame y tc tid st g) k p =
      bGames st k p +
        (if k = (y, tc) then
          (if qualW p g = true then 1 else 0) + (if qualB p g = true then 1 else 0)
        else 0) := by
  unfold yearlyStepGame
  rw [bGames_condUpd _ _ _ _ (fun b => rfl), bGames_condUpd _ _ _ _ (fun b => rfl)]
  have hqw : (if (!decide (g.white = []) && decide (0 < g.blackElo)) = true ∧
      k = (y, tc) ∧ p = g.white then (1:ℕ) else 0) =
      (if k = (y, tc) then (if qualW p g = true then 1 else 0) else 0) := by
    by_cases h1 : k = (y, tc)
    · by_cases h2 : p = g.white
      · subst h2
        by_cases h3 : g.white = [] <;> by_cases h4 : 0 < g.blackElo <;>
          simp [qualW, h1, h3, h4]
      · have hq : qualW p g = false := by
          unfold qualW
          rw [decide_eq_false (fun hc : g.white = p => h2 hc.symm)]
          simp
        simp [h1, h2, hq]
    · simp [h1]
  have hqb : (if (!decide (g.black = []) && decide (0 < g.whiteElo)) = true ∧
      k = (y, tc) ∧ p = g.black then (1:ℕ) else 0) =
      (if k = (y, tc) then (if qualB p g = true then 1 else 0) else 0) := by
    by_cases h1 : k = (y, tc)
    · by_cases h2 : p = g.black
      · subst h2
        by_cases h3 : g.black = [] <;> by_cases h4 : 0 < g.whiteElo <;>
          simp [qualB, h1, h3, h4]
      · have hq : qualB p g = false := by
          unfold qualB
          rw [decide_eq_false (fun hc : g.black = p => h2 hc.symm)]
          simp
        simp [h1, h2, hq]
    · simp [h1]
  rw [hqw, hqb]
  by_cases h1 : k = (y, tc) <;> simp [h1] <;> omega

theorem bGames_foldGames (y : ℤ) (tc tid : Str) (gs : List GameOut) (st : YDict)
    (k : ℤ × Str) (p : Str) :
    bGames (gs.foldl (yearlyStepGame y tc tid) st) k p =
      bGames st k p +
        (if k = (y, tc) then gs.countP (qualW p) + gs.countP (qualB p) else 0) := by
  induction gs generalizing st with
  | nil => simp
  | cons g gs' ih =>
      simp only [List.foldl_cons]
      rw [ih, bGames_stepGame]
      simp only [List.countP_cons]
      by_cases h1 : k = (y, tc) <;>
        by_cases h2 : qualW p g = true <;> by_cases h3 : qualB p g = true <;>
          simp [h1, h2, h3] <;> omega

theorem specYearlyCount_cons (kt : Str × Tournament) (ts : List (Str × Tournament))
    (y : ℤ) (tc p : Str) :
    specYearlyCount (kt :: ts) y tc p =
      (if resolveYear kt.2.date kt.1 = y ∧ kt.2.timeControl = tc then
        kt.2.gamesList.countP (qualW p) + kt.2.gamesList.countP (qualB p)
      else 0) + specYearlyCount ts y tc p := by
  unfold specYearlyCount
  by_cases h : resolveYear kt.2.date kt.1 = y ∧ kt.2.timeControl = tc
  · rw [if_pos h]
    rw [List.filter_cons_of_pos (by simpa using h)]
    simp
  · rw [if_neg h]
    rw [List.filter_cons_of_neg (by simpa using h)]
    simp

theorem bGames_foldTs (ts : List (Str × Tournament)) (st : YDict) (k : ℤ × Str) (p : Str) :
    bGames (ts.foldl
        (fun st kt => kt.2.gamesList.foldl
          (yearlyStepGame (resolveYear kt.2.date kt.1) kt.2.timeControl kt.1) st) st) k p =
      bGames st k p + specYearlyCount ts k.1 k.2 p := by
  induction ts generalizing st with
  | nil => simp [specYearlyCount]
  | cons kt ts' ih =>
      simp only [List.foldl_cons]
      rw [ih, bGames_foldGames, specYearlyCount_cons]
      have hiff : k = (resolveYear kt.2.date kt.1, kt.2.timeControl) ↔
          (resolveYear kt.2.date kt.1 = k.1 ∧ kt.2.timeControl = k.2) := by
        constructor
        · rintro rfl
          exact ⟨rfl, rfl⟩
        · rintro ⟨h1, h2⟩
          rw [h1, h2]
      by_cases h : k = (resolveYear kt.2.date kt.1, kt.2.timeControl)
      · rw [if_pos h, if_pos (hiff.mp h)]
        omega
      · rw [if_neg h, if_neg (fun hc => h (hiff.mpr hc))]
        omega

theorem bGames_nil (k : ℤ × Str) (p : Str) : bGames [] k p = 0 := rfl

/-- The bucket game counter of `buildYearly` equals the reference count. -/
theorem bGames_buildYearly (ts : List (Str × Tournament)) (k : ℤ × Str) (p : Str) :
    bGames (buildYearly ts) k p = specYearlyCount ts k.1 k.2 p := by
  unfold buildYearly
  rw [bGames_foldTs, bGames_nil, Nat.zero_add]

theorem YInv_nil : YInv [] := ⟨List.nodup_nil, by intro q hq; cases hq⟩

theorem YInv_updY (k : ℤ × Str) (p : Str) (f : YBucket → YBucket) {st : YDict}
    (h : YInv st) : YInv (updY k p f st) := by
  obtain ⟨h1, h2⟩ := h
  refine ⟨aupd_keys_nodup _ _ h1, ?_⟩
  exact mem_aupd_vals (P := fun v => (List.map Prod.fst v).Nodup) h2 List.nodup_nil
    (fun v hv => aupd_keys_nodup _ _ hv)

theorem YInv_condUpd (cond : Bool) (k : ℤ × Str) (p : Str) (f : YBucket → YBucket)
    {st : YDict} (h : YInv st) : YInv (if cond = true then updY k p f st else st) := by
  by_cases hc : cond = true
  · rw [if_pos hc]
    exact YInv_updY _ _ _ h
  · rw [if_neg hc]
    exact h

theorem YInv_stepGame (y : ℤ) (tc tid : Str) (st : YDict) (g : GameOut)
    (h : YInv st) : YInv (yearlyStepGame y tc tid st g) := by
  unfold yearlyStepGame
  exact YInv_condUpd _ _ _ _ (YInv_condUpd _ _ _ _ h)

theorem YInv_buildYearly (ts : List (Str × Tournament)) : YInv (buildYearly ts) := by
  unfold buildYearly
  suffices hgen : ∀ (ts : List (Str × Tournament)) (st : YDict), YInv st →
      YInv (ts.foldl
        (fun st kt => kt.2.gamesList.foldl
          (yearlyStepGame (resolveYear kt.2.date kt.1) kt.2.timeControl kt.1) st) st) by
    exact hgen ts [] YInv_nil
  intro ts
  induction ts with
  | nil => intro st h; exact h
  | cons kt ts' ih =>
      intro st h
      simp only [List.foldl_cons]
      refine ih _ ?_
      suffices hg : ∀ (gs : List GameOut) (st : YDict), YInv st →
          YInv (gs.foldl
            (yearlyStepGame (resolveYear kt.2.date kt.1) kt.2.timeControl kt.1) st) by
        exact hg _ st h
      intro gs
      induction gs with
      | nil => intro st h2; exact h2
      | cons g gs' ihg =>
          intro st h2
          simp only [List.foldl_cons]
          exact ihg _ (YInv_stepGame _ _ _ _ _ h2)

theorem mem_yearlyEntries {st : YDict} (hinv : YInv st) (e : YEntry) :
    e ∈ yearlyEntries st ↔
      ∃ k p b, alook k st ≠ none ∧
        alook p ((alook k st).getD []) = some b ∧ 5 ≤ b.games ∧ e = mkYEntry k p b := by
  constructor
  · intro he
    obtain ⟨lsub, hsub, hmem⟩ := List.mem_flatten.mp he
    obtain ⟨⟨k, inner⟩, hkin, rfl⟩ := List.mem_map.mp hsub
    obtain ⟨⟨p, b⟩, hpb, hsome⟩ := List.mem_filterMap.mp hmem
    by_cases hg : 5 ≤ b.games
    · rw [if_pos hg] at hsome
      obtain rfl := Option.some.injEq .. ▸ hsome
      have hk : alook k st = some inner := alook_eq_of_mem_nodup hkin hinv.1
      have hp : alook p inner = some b :=
        alook_eq_of_mem_nodup hpb (hinv.2 ⟨k, inner⟩ hkin)
      exact ⟨k, p, b, by rw [hk]; exact fun hc => Option.noConfusion hc,
        by rw [hk]; exact hp, hg, rfl⟩
    · rw [if_neg hg] at hsome
      cases hsome
  · rintro ⟨k, p, b, hk, hp, hg, rfl⟩
    cases hkv : alook k st with
    | none => exact absurd hkv hk
    | some inner =>
        rw [hkv] at hp
        simp only [Option.getD_some] at hp
        refine List.mem_flatten.mpr
          ⟨inner.filterMap fun pb =>
            if 5 ≤ pb.2.games then some (mkYEntry k pb.1 pb.2) else none,
            List.mem_map.mpr ⟨(k, inner), alook_mem hkv, rfl⟩, ?_⟩
        exact List.mem_filterMap.mpr ⟨(p, b), alook_mem hp, by rw [if_pos hg]⟩

theorem mem_generate_yearly {ts : List (Str × Tournament)} {e : YEntry} :
    e ∈ generate_yearly_tpr_data ts ↔ e ∈ yearlyEntries (buildYearly ts) := by
  letI : DecidableRel yentOrd := Classical.decRel _
  unfold generate_yearly_tpr_data
  exact List.mem_insertionSort yentOrd

/-- C9: in the yearly rollup, a game is counted toward a player's
(year, time-control) bucket exactly when the player's name is non-empty and
the opposing side's rating is strictly positive (the bucket's game count
equals the reference count over all matching tournaments); every emitted
yearly entry carries its bucket's game count and has at least 5 games; and
every bucket with at least 5 games is emitted. -/
theorem C9_yearly (ts : List (Str × Tournament)) (y : ℤ) (tc p : Str) :
    bGames (buildYearly ts) (y, tc) p = specYearlyCount ts y tc p ∧
      (∀ e ∈ generate_yearly_tpr_data ts,
        e.games = bGames (buildYearly ts) (e.year, e.timeControl) e.player ∧ 5 ≤ e.games) ∧
      (5 ≤ bGames (buildYearly ts) (y, tc) p →
        ∃ e ∈ generate_yearly_tpr_data ts,
          e.player = p ∧ e.year = y ∧ e.timeControl = tc ∧
            e.games = bGames (buildYearly ts) (y, tc) p) := by
  have hinv := YInv_buildYearly ts
  refine ⟨bGames_buildYearly ts (y, tc) p, ?_, ?_⟩
  · intro e he
    obtain ⟨k, q, b, hk, hp, hg, rfl⟩ := (mem_yearlyEntries hinv e).mp
      (mem_generate_yearly.mp he)
    obtain ⟨y0, tc0⟩ := k
    refine ⟨?_, hg⟩
    show b.games = bGames (buildYearly ts) (y0, tc0) q
    unfold bGames
    rw [hp]
    rfl
  · intro hge
    cases hkv : alook (y, tc) (buildYearly ts) with
    | none =>
        exfalso
        unfold bGames at hge
        rw [hkv] at hge
        simp [YBucket.init, alook] at hge
    | some inner =>
        cases hpv : alook p inner with
        | none =>
            exfalso
            unfold bGames at hge
            rw [hkv] at hge
            simp only [Option.getD_some] at hge
            rw [hpv] at hge
            simp [YBucket.init] at hge
        | some b =>
            have hb : bGames (buildYearly ts) (y, tc) p = b.games := by
              unfold bGames
              rw [hkv]
              simp only [Option.getD_some]
              rw [hpv]
              rfl
            refine ⟨mkYEntry (y, tc) p b, ?_, rfl, rfl, rfl, ?_⟩
            · refine mem_generate_yearly.mpr ((mem_yearlyEntries hinv _).mpr
                ⟨(y, tc), p, b, ?_, ?_, ?_, rfl⟩)
              · rw [hkv]
                exact fun hc => Option.noConfusion hc
              · rw [hkv]
                simpa using hpv
              · rw [← hb]
                exact hge
            · rw [hb]
              rfl

/-- C9 witness: one five-game tournament; the sample player's bucket counts
5 qualifying games and is emitted. -/
theorem C9_yearly_witness :
    bGames (buildYearly sampleTs) (2025, "classical".data) "Smith, John".data =
        specYearlyCount sampleTs 2025 "classical".data "Smith, John".data ∧
      5 ≤ bGames (buildYearly sampleTs) (2025, "classical".data) "Smith, John".data ∧
      ∃ e ∈ generate_yearly_tpr_data sampleTs,
        e.player = "Smith, John".data ∧ e.year = 2025 ∧ e.timeControl = "classical".data ∧
          e.games = bGames (buildYearly sampleTs) (2025, "classical".data)
            "Smith, John".data :=
  ⟨(C9_yearly sampleTs 2025 "classical".data "Smith, John".data).1, by decide,
    (C9_yearly sampleTs 2025 "classical".data "Smith, John".data).2.2 (by decide)⟩

end BuildSite
